import Mathlib

/-!
Verification of the rustbus D-Bus marshalling core.

This file is a shallow embedding, in Lean 4, of the message-body
builder/parser (`src/rustbus/src/message_builder.rs`), the raw validator
(`src/rustbus/src/wire/validate_raw.rs`), the dynamic container marshaller
(`src/src/wire/marshal/container.rs`) and the base-type trait impls
(`src/rustbus/src/wire/marshal/traits/base.rs`).

Bytes are modelled as `Nat` (with `% 256` where the code writes a byte),
byte buffers as `List Nat`, signature strings as `List Char` (D-Bus
signatures are ASCII, so the Rust byte indices coincide with char indices),
and fallible operations return `Except` / pairs with an `Option` error.
Helper modules of the repository that are not under `src/` (the signature
parser, `wire::util`, `params::validate_*`) are modelled from the spec and
are marked `Modelled from the spec:` in their doc comments.
-/

/-- Decidable equality for `Except` results. -/
instance {ε α : Type} [DecidableEq ε] [DecidableEq α] : DecidableEq (Except ε α) := fun a b =>
  match a, b with
  | .ok x, .ok y => if h : x = y then .isTrue (by rw [h]) else .isFalse (by simp [h])
  | .error x, .error y => if h : x = y then .isTrue (by rw [h]) else .isFalse (by simp [h])
  | .ok _, .error _ => .isFalse (by simp)
  | .error _, .ok _ => .isFalse (by simp)

namespace Rustbus

/-- Byte order of a message body (src `ByteOrder`). -/
inductive ByteOrder
  | littleEndian
  | bigEndian
deriving DecidableEq, Repr

/-- Modelled from the spec: the host's native byte order (`ByteOrder::NATIVE`);
little endian on the x86-64 hosts the crate targets. -/
def ByteOrder.NATIVE : ByteOrder := ByteOrder.littleEndian

/-- Errors arising while building bytes (spec section 7, `MarshalError`). -/
inductive MarshalError
  | InvalidSignature
  | TooLong
  | ExceedsMaxDepth
  | EmptyStruct
  | InvalidObjectPath
  | InvalidSignatureChar
  | DictKeyMustBeBase
  | VariantSigMismatch
  | FdIndexOverflow
deriving DecidableEq, Repr

/-- Errors arising while reading bytes (spec section 7, `UnmarshalError`). -/
inductive UnmarshalError
  | NotEnoughBytes
  | NotEnoughBytesForCollection
  | NotAllBytesUsed
  | PaddingContainedData
  | InvalidBoolean
  | InvalidObjectPath
  | InvalidUtf8
  | InvalidSignature
  | WrongSignature
  | EndOfMessage
deriving DecidableEq, Repr

/-- Base kinds of the D-Bus signature tree (`signature::Base`). -/
inductive Base
  | Byte
  | Boolean
  | Int16
  | Uint16
  | Int32
  | Uint32
  | Int64
  | Uint64
  | Double
  | String
  | ObjectPath
  | Signature
  | UnixFd
deriving DecidableEq, Repr

mutual
/-- A D-Bus signature type (`signature::Type`). -/
inductive SigType
  | Base (b : Base)
  | Container (c : Container)

/-- Container kinds of the D-Bus signature tree (`signature::Container`).
`Dict k v` stands for the whole `a{kv}` array of dict entries, as in the
source. -/
inductive Container
  | Array (t : SigType)
  | Dict (k : Base) (v : SigType)
  | Struct (ts : List SigType)
  | Variant
end

mutual
/-- Boolean equality on signature types (the `PartialEq` derive of the
source). -/
def SigType.beq : SigType → SigType → Bool
  | .Base a, .Base b => a = b
  | .Container a, .Container b => a.beq b
  | _, _ => false

/-- Boolean equality on container types. -/
def Container.beq : Container → Container → Bool
  | .Array a, .Array b => a.beq b
  | .Dict ka va, .Dict kb vb => ka = kb && va.beq vb
  | .Struct a, .Struct b => sigListBeq a b
  | .Variant, .Variant => true
  | _, _ => false

/-- Boolean equality on lists of signature types. -/
def sigListBeq : List SigType → List SigType → Bool
  | [], [] => true
  | a :: as', b :: bs' => a.beq b && sigListBeq as' bs'
  | _, _ => false
end

instance : BEq SigType := ⟨SigType.beq⟩

/-- Modelled from the spec: `get_alignment` on base types
(y,g,v => 1; n,q => 2; i,u,b,h,a,s,o => 4; x,t,d,struct,dict-entry => 8). -/
def Base.get_alignment : Base → Nat
  | .Byte => 1
  | .Boolean => 4
  | .Int16 => 2
  | .Uint16 => 2
  | .Int32 => 4
  | .Uint32 => 4
  | .Int64 => 8
  | .Uint64 => 8
  | .Double => 8
  | .String => 4
  | .ObjectPath => 4
  | .Signature => 1
  | .UnixFd => 4

/-- Modelled from the spec: `get_alignment` on container types. An array
(and a dict, which encodes as an array of entries) aligns to its u32
length prefix, a struct and a dict entry to 8, a variant to 1. -/
def Container.get_alignment : Container → Nat
  | .Array _ => 4
  | .Dict _ _ => 4
  | .Struct _ => 8
  | .Variant => 1

/-- Modelled from the spec: `Type::get_alignment`. -/
def SigType.get_alignment : SigType → Nat
  | .Base b => b.get_alignment
  | .Container c => c.get_alignment

/-- Modelled from the spec: `bytes_always_valid()` is true exactly for the
fixed-width base types whose size equals their alignment
(y,n,q,i,u,x,t,d,h); not b, because the boolean domain is 0/1. -/
def Base.bytes_always_valid : Base → Bool
  | .Byte => true
  | .Boolean => false
  | .Int16 => true
  | .Uint16 => true
  | .Int32 => true
  | .Uint32 => true
  | .Int64 => true
  | .Uint64 => true
  | .Double => true
  | .String => false
  | .ObjectPath => false
  | .Signature => false
  | .UnixFd => true

/-- Modelled from the spec: `Type::bytes_always_valid`; containers always
have variable structure. -/
def SigType.bytes_always_valid : SigType → Bool
  | .Base b => b.bytes_always_valid
  | .Container _ => false

/-- The single-character code of a base type (spec section 3). -/
def Base.to_char : Base → Char
  | .Byte => 'y'
  | .Boolean => 'b'
  | .Int16 => 'n'
  | .Uint16 => 'q'
  | .Int32 => 'i'
  | .Uint32 => 'u'
  | .Int64 => 'x'
  | .Uint64 => 't'
  | .Double => 'd'
  | .String => 's'
  | .ObjectPath => 'o'
  | .Signature => 'g'
  | .UnixFd => 'h'

/-- The opening curly bracket character (code 123), written via `Char.ofNat`
to keep brace characters out of literals. -/
def lbraceChar : Char := Char.ofNat 123

/-- The closing curly bracket character (code 125). -/
def rbraceChar : Char := Char.ofNat 125

mutual
/-- Modelled from the spec: `Type::to_str`, emitting the signature
characters of a type. -/
def SigType.to_str : SigType → List Char
  | .Base b => [b.to_char]
  | .Container c => c.to_str

/-- Modelled from the spec: signature characters of a container type. -/
def Container.to_str : Container → List Char
  | .Array t => 'a' :: t.to_str
  | .Dict k v => 'a' :: lbraceChar :: (k.to_char :: (v.to_str ++ [rbraceChar]))
  | .Struct ts => '(' :: (sigList_to_str ts ++ [')'])
  | .Variant => ['v']

/-- Signature characters of a list of types, concatenated. -/
def sigList_to_str : List SigType → List Char
  | [] => []
  | t :: ts => t.to_str ++ sigList_to_str ts
end

/-- The base type a signature character denotes, if any. -/
def base_of_char (c : Char) : Option Base :=
  if c = 'y' then some .Byte
  else if c = 'b' then some .Boolean
  else if c = 'n' then some .Int16
  else if c = 'q' then some .Uint16
  else if c = 'i' then some .Int32
  else if c = 'u' then some .Uint32
  else if c = 'x' then some .Int64
  else if c = 't' then some .Uint64
  else if c = 'd' then some .Double
  else if c = 's' then some .String
  else if c = 'o' then some .ObjectPath
  else if c = 'g' then some .Signature
  else if c = 'h' then some .UnixFd
  else none

mutual
/-- Modelled from the spec (section 4.A): parse one complete type from the
head of a signature character list. `depth` counts the nesting of arrays
and structs (limit 32); `fuel` makes the recursion obviously terminating
(one unit per consumed character suffices). -/
def parse_one (fuel depth : Nat) : List Char → Except MarshalError (SigType × List Char)
  | [] => .error .InvalidSignature
  | c :: rest =>
    match fuel with
    | 0 => .error .InvalidSignature
    | fuel + 1 =>
      if depth > 32 then .error .ExceedsMaxDepth
      else if c = 'a' then
        match rest with
        | d :: rest2 =>
          if d = lbraceChar then
            match rest2 with
            | k :: rest3 =>
              match base_of_char k with
              | none => .error .InvalidSignature
              | some kb =>
                match parse_one fuel (depth + 1) rest3 with
                | .error e => .error e
                | .ok (v, rest4) =>
                  match rest4 with
                  | e :: rest5 =>
                    if e = rbraceChar then
                      .ok (.Container (.Dict kb v), rest5)
                    else .error .InvalidSignature
                  | [] => .error .InvalidSignature
            | [] => .error .InvalidSignature
          else
            match parse_one fuel (depth + 1) rest with
            | .error e => .error e
            | .ok (t, rest2') => .ok (.Container (.Array t), rest2')
        | [] => .error .InvalidSignature
      else if c = '(' then
        match parse_fields fuel (depth + 1) rest with
        | .error e => .error e
        | .ok (ts, rest2) =>
          if ts.isEmpty then .error .EmptyStruct
          else .ok (.Container (.Struct ts), rest2)
      else if c = 'v' then .ok (.Container .Variant, rest)
      else
        match base_of_char c with
        | some b => .ok (.Base b, rest)
        | none => .error .InvalidSignature

/-- Modelled from the spec: parse struct field types up to the matching
closing parenthesis. -/
def parse_fields (fuel depth : Nat) : List Char → Except MarshalError (List SigType × List Char)
  | [] => .error .InvalidSignature
  | c :: rest =>
    match fuel with
    | 0 => .error .InvalidSignature
    | fuel + 1 =>
      if c = ')' then .ok ([], rest)
      else
        match parse_one fuel depth (c :: rest) with
        | .error e => .error e
        | .ok (t, rest2) =>
          match parse_fields fuel depth rest2 with
          | .error e => .error e
          | .ok (ts, rest3) => .ok (t :: ts, rest3)
end

/-- Modelled from the spec: parse a whole signature character list into its
top-level types. -/
def parse_many (fuel depth : Nat) : List Char → Except MarshalError (List SigType)
  | [] => .ok []
  | c :: rest =>
    match fuel with
    | 0 => .error .InvalidSignature
    | fuel + 1 =>
      match parse_one fuel depth (c :: rest) with
      | .error e => .error e
      | .ok (t, rest2) =>
        match parse_many fuel depth rest2 with
        | .error e => .error e
        | .ok ts => .ok (t :: ts)

/-- Modelled from the spec: `signature::Type::parse_description`. Rejects
signatures longer than 255 bytes, then parses the top-level types. -/
def parse_description (s : List Char) : Except MarshalError (List SigType) :=
  if s.length > 255 then .error .TooLong
  else parse_many (2 * s.length + 2) 0 s

/-- Length of the bracket group opened right before `cs`, up to and
including the closing character `close`, tracking nesting of `open_c`. -/
def group_len (open_c close : Char) : Nat → List Char → Nat
  | _, [] => 0
  | d, c :: rest =>
    if c = close then
      (if d = 0 then 1 else 1 + group_len open_c close (d - 1) rest)
    else if c = open_c then 1 + group_len open_c close (d + 1) rest
    else 1 + group_len open_c close d rest

/-- Modelled from the spec: the number of characters of the first complete
top-level type token of a signature string (the unit by which
`SignatureIter` advances). On a valid signature this is the token length;
on garbage it still returns at least one character so the iterator always
advances. -/
def token_len : List Char → Nat
  | [] => 0
  | c :: rest =>
    1 + (if c = 'a' then token_len rest
         else if c = '(' then group_len '(' ')' 0 rest
         else if c = lbraceChar then group_len lbraceChar rbraceChar 0 rest
         else 0)

/-- Token-counting loop: every step drops at least one character (tokens
are nonempty), so `cs.length` units of fuel suffice. -/
def token_count_go (fuel : Nat) (cs : List Char) : Nat :=
  match fuel with
  | 0 => 0
  | fuel + 1 =>
    match cs with
    | [] => 0
    | c :: rest => 1 + token_count_go fuel ((c :: rest).drop (token_len (c :: rest)))
termination_by structural fuel

/-- Modelled from the spec: the number of top-level tokens left in a
signature string (`SignatureIter::count`). -/
def token_count (cs : List Char) : Nat := token_count_go cs.length cs

/-- The bytes `buf[off .. off+n]` of a byte buffer. -/
def readBytes (buf : List Nat) (off n : Nat) : List Nat :=
  (buf.drop off).take n

/-- Modelled from the spec (section 4.B): `util::align_offset`. Returns the
number of padding bytes needed to reach the next multiple of `required`,
verifying on the parse side that those bytes are present and all zero. -/
def align_offset (required : Nat) (buf : List Nat) (offset : Nat) : Except UnmarshalError Nat :=
  let padding := (required - offset % required) % required
  if buf.length < offset + padding then .error .NotEnoughBytes
  else if (readBytes buf offset padding).any (fun b => b ≠ 0) then .error .PaddingContainedData
  else .ok padding

/-- Modelled from the spec: `util::parse_u32`, an endian-aware read of a
u32 from the head of a byte slice, returning `(bytes_consumed, value)`. -/
def parse_u32 (buf : List Nat) (byteorder : ByteOrder) : Except UnmarshalError (Nat × Nat) :=
  match buf.take 4 with
  | [b0, b1, b2, b3] =>
    match byteorder with
    | .littleEndian => .ok (4, b0 + 256 * b1 + 65536 * b2 + 16777216 * b3)
    | .bigEndian => .ok (4, b3 + 256 * b2 + 65536 * b1 + 16777216 * b0)
  | _ => .error .NotEnoughBytes

/-- Is `b` a UTF-8 continuation byte? -/
def is_cont_byte (b : Nat) : Bool := 128 ≤ b && b < 192

/-- Modelled from the spec: UTF-8 well-formedness of a byte sequence
(length structure of the encoding; overlong forms and surrogates are not
rejected, no claim depends on that distinction). -/
def utf8_valid : List Nat → Bool
  | [] => true
  | b :: rest =>
    if b < 128 then utf8_valid rest
    else if 194 ≤ b && b < 224 then
      match rest with
      | c1 :: r => is_cont_byte c1 && utf8_valid r
      | [] => false
    else if 224 ≤ b && b < 240 then
      match rest with
      | c1 :: c2 :: r => is_cont_byte c1 && is_cont_byte c2 && utf8_valid r
      | _ => false
    else if 240 ≤ b && b < 245 then
      match rest with
      | c1 :: c2 :: c3 :: r =>
        is_cont_byte c1 && is_cont_byte c2 && is_cont_byte c3 && utf8_valid r
      | _ => false
    else false

/-- Modelled from the spec (section 4.B): `util::unmarshal_str`. A string
encodes as a u32 length, that many UTF-8 bytes, and one NUL byte; returns
`(bytes_consumed, content_bytes)`. -/
def unmarshal_str (byteorder : ByteOrder) (buf : List Nat) : Except UnmarshalError (Nat × List Nat) :=
  match parse_u32 buf byteorder with
  | .error e => .error e
  | .ok (_, len) =>
    if buf.length < 4 + len + 1 then .error .NotEnoughBytes
    else
      let content := readBytes buf 4 len
      if ¬ utf8_valid content then .error .InvalidUtf8
      else if (buf.drop (4 + len)).head? ≠ some 0 then .error .InvalidUtf8
      else .ok (4 + len + 1, content)

/-- Modelled from the spec (section 4.B): `util::unmarshal_signature`. A
signature field encodes as a u8 length, that many bytes, and one NUL. -/
def unmarshal_signature (buf : List Nat) : Except UnmarshalError (Nat × List Nat) :=
  match buf with
  | [] => .error .NotEnoughBytes
  | len :: rest =>
    if rest.length < len + 1 then .error .NotEnoughBytes
    else if (rest.drop len).head? ≠ some 0 then .error .InvalidSignature
    else .ok (len + 2, rest.take len)

/-- Is `b` a byte allowed inside a D-Bus object-path element
(`[A-Za-z0-9_]`)? -/
def path_elem_byte (b : Nat) : Bool :=
  (65 ≤ b && b ≤ 90) || (97 ≤ b && b ≤ 122) || (48 ≤ b && b ≤ 57) || b = 95

mutual
/-- An object-path element: at least one valid byte, then the tail. -/
def path_seg : List Nat → Bool
  | [] => false
  | b :: rest => path_elem_byte b && path_after rest

/-- The continuation of an object-path element: more valid bytes, or a
slash starting the next element. -/
def path_after : List Nat → Bool
  | [] => true
  | b :: rest => if b = 47 then path_seg rest else path_elem_byte b && path_after rest
end

/-- Modelled from the spec (D-Bus grammar): `params::validate_object_path`
on the raw bytes: a leading slash, then slash-separated nonempty elements
of `[A-Za-z0-9_]`, no trailing slash (the root path `/` excepted). -/
def validate_object_path (bytes : List Nat) : Bool :=
  match bytes with
  | [47] => true
  | 47 :: rest => path_seg rest
  | _ => false

/-- Modelled from the spec: `params::validate_signature` accepts exactly
the strings `parse_description` parses. -/
def validate_signature (s : List Char) : Bool :=
  match parse_description s with
  | .ok _ => true
  | .error _ => false

/-- Modelled from the spec: the `From<MarshalError>` conversion used by the
validator when a nested signature fails to parse (`e.into()`). -/
def MarshalError.into_unmarshal : MarshalError → UnmarshalError
  | _ => .InvalidSignature

/-- Bytes of a u16 in the given byte order. -/
def u16_bytes (byteorder : ByteOrder) (v : Nat) : List Nat :=
  match byteorder with
  | .littleEndian => [v % 256, v / 256 % 256]
  | .bigEndian => [v / 256 % 256, v % 256]

/-- Bytes of a u32 in the given byte order. -/
def u32_bytes (byteorder : ByteOrder) (v : Nat) : List Nat :=
  match byteorder with
  | .littleEndian => [v % 256, v / 256 % 256, v / 65536 % 256, v / 16777216 % 256]
  | .bigEndian => [v / 16777216 % 256, v / 65536 % 256, v / 256 % 256, v % 256]

/-- Bytes of a u64 in the given byte order. -/
def u64_bytes (byteorder : ByteOrder) (v : Nat) : List Nat :=
  match byteorder with
  | .littleEndian => u32_bytes .littleEndian (v % 4294967296) ++ u32_bytes .littleEndian (v / 4294967296 % 4294967296)
  | .bigEndian => u32_bytes .bigEndian (v / 4294967296 % 4294967296) ++ u32_bytes .bigEndian (v % 4294967296)

/-- Modelled from the spec: `util::pad_to_align` appends zero bytes until
the buffer length is a multiple of `align_to`. -/
def pad_to_align (align_to : Nat) (buf : List Nat) : List Nat :=
  buf ++ List.replicate ((align_to - buf.length % align_to) % align_to) 0

/-- Modelled from the spec: `util::insert_u32` overwrites the four bytes at
`pos` with the u32 `v`. -/
def insert_u32 (byteorder : ByteOrder) (v : Nat) (buf : List Nat) (pos : Nat) : List Nat :=
  buf.take pos ++ u32_bytes byteorder v ++ buf.drop (pos + 4)

/-- Modelled from the spec (section 4.B): `util::marshal_signature` writes
a u8 length, the signature bytes, and a NUL; the length never exceeds 255,
longer signatures are rejected. -/
def marshal_signature (s : List Char) (buf : List Nat) : Except MarshalError (List Nat) :=
  if s.length > 255 then .error .TooLong
  else .ok (buf ++ [s.length] ++ s.map (fun c => c.toNat) ++ [0])

/-- The UTF-8 bytes of a payload string. -/
def str_bytes (s : String) : List Nat :=
  s.toUTF8.toList.map (fun b => b.toNat)

/-- Modelled from the spec (section 4.B): `util::write_string` appends a
u32 byte length (NUL not counted), the UTF-8 bytes, and a NUL. -/
def write_string (s : String) (byteorder : ByteOrder) (buf : List Nat) : List Nat :=
  buf ++ u32_bytes byteorder s.utf8ByteSize ++ str_bytes s ++ [0]

/-- The write cursor threaded through marshalling (`MarshalContext`): the
payload buffer and the out-of-band fd list (fds as raw handles). -/
structure MarshalCtx where
  buf : List Nat
  fds : List Nat
deriving DecidableEq, Repr

/-- Base values of the dynamic parameter model (`params::Base`; the `Ref`
variants of the source marshal identically and are collapsed). -/
inductive BaseVal
  | Byte (v : Nat)
  | Boolean (v : Bool)
  | Int16 (v : Int)
  | Uint16 (v : Nat)
  | Int32 (v : Int)
  | Uint32 (v : Nat)
  | Int64 (v : Int)
  | Uint64 (v : Nat)
  | Double (bits : Nat)
  | String (s : String)
  | ObjectPath (s : String)
  | Signature (s : String)
  | UnixFd (fd : Nat)
deriving DecidableEq, Repr

mutual
/-- Dynamic runtime-typed parameters (`params::Param`). -/
inductive Param
  | Base (b : BaseVal)
  | Container (c : ParamContainer)

/-- Container parameters (`params::Container`; the `Ref` variants marshal
identically and are collapsed). -/
inductive ParamContainer
  | Array (element_sig : SigType) (values : List Param)
  | Struct (values : List Param)
  | Dict (key_sig : Base) (value_sig : SigType) (map : List (BaseVal × Param))
  | Variant (sig : SigType) (value : Param)
end

/-- Modelled from the spec: the signature base kind of a base value. -/
def BaseVal.sig : BaseVal → Base
  | .Byte _ => .Byte
  | .Boolean _ => .Boolean
  | .Int16 _ => .Int16
  | .Uint16 _ => .Uint16
  | .Int32 _ => .Int32
  | .Uint32 _ => .Uint32
  | .Int64 _ => .Int64
  | .Uint64 _ => .Uint64
  | .Double _ => .Double
  | .String _ => .String
  | .ObjectPath _ => .ObjectPath
  | .Signature _ => .Signature
  | .UnixFd _ => .UnixFd

/-- Modelled from the spec: `Param::sig`, the signature type a dynamic
parameter declares (containers carry their element signatures as data). -/
def Param.sig : Param → SigType
  | .Base b => .Base b.sig
  | .Container (.Array es _) => .Container (.Array es)
  | .Container (.Struct vs) =>
    .Container (.Struct (paramListSigs vs))
  | .Container (.Dict ks vs _) => .Container (.Dict ks vs)
  | .Container (.Variant _ _) => .Container .Variant
where
  /-- Signatures of a list of parameters. -/
  paramListSigs : List Param → List SigType
    | [] => []
    | p :: ps => p.sig :: paramListSigs ps

/-- Modelled from the spec (section 4.E): `params::validate_array` — every
element's computed signature equals the declared element signature. The
source reports a dedicated element-type-mismatch error; the exact error
kind is not fixed by the spec, `InvalidSignature` stands in for it. -/
def validate_array (values : List Param) (sig : SigType) : Except MarshalError Unit :=
  if values.all (fun v => v.sig.beq sig) then .ok () else .error .InvalidSignature

/-- Modelled from the spec (section 4.E): `params::validate_dict` — every
key matches the declared base key signature and every value the declared
value signature. -/
def validate_dict (map : List (BaseVal × Param)) (key_sig : Base) (value_sig : SigType) :
    Except MarshalError Unit :=
  if map.all (fun kv => kv.1.sig = key_sig && kv.2.sig.beq value_sig) then .ok ()
  else .error .InvalidSignature

/-- Two's-complement byte value of an integer, modulo `m`. -/
def int_mod (v : Int) (m : Nat) : Nat := (v % (m : Int)).toNat

/-- Modelled from the spec (sections 4.B/4.C): `marshal_base_param` — align
to the base type's alignment, then append the value's bytes. Booleans
write a u32 0/1; strings and object paths write a u32 length, UTF-8 bytes
and a NUL; signatures write a u8 length; a unix fd is appended to the fd
list and its index written as a u32. Returns the error (if any) and the
context, which keeps any partial writes, as the Rust `&mut` context does. -/
def marshal_base_param (byteorder : ByteOrder) (b : BaseVal) (ctx : MarshalCtx) :
    Option MarshalError × MarshalCtx :=
  match b with
  | .Byte v => (none, { ctx with buf := ctx.buf ++ [v % 256] })
  | .Boolean v =>
    (none, { ctx with buf := pad_to_align 4 ctx.buf ++ u32_bytes byteorder (if v then 1 else 0) })
  | .Int16 v =>
    (none, { ctx with buf := pad_to_align 2 ctx.buf ++ u16_bytes byteorder (int_mod v 65536) })
  | .Uint16 v =>
    (none, { ctx with buf := pad_to_align 2 ctx.buf ++ u16_bytes byteorder (v % 65536) })
  | .Int32 v =>
    (none, { ctx with buf := pad_to_align 4 ctx.buf ++ u32_bytes byteorder (int_mod v 4294967296) })
  | .Uint32 v =>
    (none, { ctx with buf := pad_to_align 4 ctx.buf ++ u32_bytes byteorder (v % 4294967296) })
  | .Int64 v =>
    (none, { ctx with buf := pad_to_align 8 ctx.buf ++ u64_bytes byteorder (int_mod v 18446744073709551616) })
  | .Uint64 v =>
    (none, { ctx with buf := pad_to_align 8 ctx.buf ++ u64_bytes byteorder (v % 18446744073709551616) })
  | .Double bits =>
    (none, { ctx with buf := pad_to_align 8 ctx.buf ++ u64_bytes byteorder (bits % 18446744073709551616) })
  | .String s => (none, { ctx with buf := write_string s byteorder (pad_to_align 4 ctx.buf) })
  | .ObjectPath s =>
    if validate_object_path (str_bytes s) then
      (none, { ctx with buf := write_string s byteorder (pad_to_align 4 ctx.buf) })
    else (some .InvalidObjectPath, ctx)
  | .Signature s =>
    match marshal_signature s.toList ctx.buf with
    | .ok buf2 => (none, { ctx with buf := buf2 })
    | .error e => (some e, ctx)
  | .UnixFd fd =>
    if ctx.fds.length ≥ 4294967296 then (some .FdIndexOverflow, ctx)
    else
      (none, { buf := pad_to_align 4 ctx.buf ++ u32_bytes byteorder ctx.fds.length,
               fds := ctx.fds ++ [fd] })

mutual
/-- `marshal_param` from `src/src/wire/marshal/container.rs`: dispatch on
base or container parameters. -/
def marshal_param (byteorder : ByteOrder) (p : Param) (ctx : MarshalCtx) :
    Option MarshalError × MarshalCtx :=
  match p with
  | .Base b => marshal_base_param byteorder b ctx
  | .Container c => marshal_container_param byteorder c ctx
termination_by 3 * sizeOf p
decreasing_by
  all_goals simp_wf
  all_goals (try simp [Param.Container.sizeOf_spec])
  all_goals omega

/-- `marshal_array` from `container.rs`: pad to 4, reserve the u32 length
slot (four zero bytes), pad to the element alignment (not counted in the
length), marshal the elements, then write the content length — as in Rust,
truncated to 32 bits — back into the slot. There is no length check. -/
def marshal_array (byteorder : ByteOrder) (array : List Param) (sig : SigType)
    (ctx : MarshalCtx) : Option MarshalError × MarshalCtx :=
  let buf1 := pad_to_align 4 ctx.buf
  let len_pos := buf1.length
  let buf2 := buf1 ++ [0, 0, 0, 0]
  let buf3 := pad_to_align sig.get_alignment buf2
  let content_pos := buf3.length
  match marshal_param_list byteorder array { ctx with buf := buf3 } with
  | (some e, ctx2) => (some e, ctx2)
  | (none, ctx2) =>
    let len := ctx2.buf.length - content_pos
    (none, { ctx2 with buf := insert_u32 byteorder (len % 4294967296) ctx2.buf len_pos })
termination_by 3 * sizeOf array + 1
decreasing_by
  all_goals simp_wf
  all_goals (try simp [Param.Container.sizeOf_spec])
  all_goals omega

/-- `marshal_struct` from `container.rs`: pad to 8, then marshal the fields
in order. -/
def marshal_struct (byteorder : ByteOrder) (params : List Param) (ctx : MarshalCtx) :
    Option MarshalError × MarshalCtx :=
  marshal_param_list byteorder params { ctx with buf := pad_to_align 8 ctx.buf }
termination_by 3 * sizeOf params + 1
decreasing_by
  all_goals simp_wf
  all_goals (try simp [Param.Container.sizeOf_spec])
  all_goals omega

/-- `marshal_variant` from `container.rs`: write the contained type's
signature as a `g` field, then the value itself. -/
def marshal_variant (byteorder : ByteOrder) (sig : SigType) (value : Param)
    (ctx : MarshalCtx) : Option MarshalError × MarshalCtx :=
  match marshal_signature sig.to_str ctx.buf with
  | .error e => (some e, ctx)
  | .ok buf2 => marshal_param byteorder value { ctx with buf := buf2 }
termination_by 3 * sizeOf value + 1
decreasing_by
  all_goals simp_wf
  all_goals (try simp [Param.Container.sizeOf_spec])
  all_goals omega

/-- `marshal_dict` from `container.rs`: like an array, but each entry is
padded to 8 before the key/value pair; the content length is written back
truncated to 32 bits, with no length check. -/
def marshal_dict (byteorder : ByteOrder) (map : List (BaseVal × Param)) (ctx : MarshalCtx) :
    Option MarshalError × MarshalCtx :=
  let buf1 := pad_to_align 4 ctx.buf
  let len_pos := buf1.length
  let buf2 := buf1 ++ [0, 0, 0, 0]
  let buf3 := pad_to_align 8 buf2
  let content_pos := buf3.length
  match marshal_dict_entries byteorder map { ctx with buf := buf3 } with
  | (some e, ctx2) => (some e, ctx2)
  | (none, ctx2) =>
    let len := ctx2.buf.length - content_pos
    (none, { ctx2 with buf := insert_u32 byteorder (len % 4294967296) ctx2.buf len_pos })
termination_by 3 * sizeOf map + 1
decreasing_by
  all_goals simp_wf
  all_goals (try simp [Param.Container.sizeOf_spec])
  all_goals omega

/-- The `for` loop bodies of `marshal_array` and `marshal_struct`: marshal
each parameter in order, stopping at the first error. -/
def marshal_param_list (byteorder : ByteOrder) (ps : List Param) (ctx : MarshalCtx) :
    Option MarshalError × MarshalCtx :=
  match ps with
  | [] => (none, ctx)
  | p :: rest =>
    match marshal_param byteorder p ctx with
    | (some e, ctx2) => (some e, ctx2)
    | (none, ctx2) => marshal_param_list byteorder rest ctx2
termination_by 3 * sizeOf ps
decreasing_by
  all_goals simp_wf
  all_goals (try simp [Param.Container.sizeOf_spec])
  all_goals omega

/-- The `for` loop body of `marshal_dict`: pad to 8, marshal the base key,
then the value, for each entry in order. -/
def marshal_dict_entries (byteorder : ByteOrder) (map : List (BaseVal × Param))
    (ctx : MarshalCtx) : Option MarshalError × MarshalCtx :=
  match map with
  | [] => (none, ctx)
  | (k, v) :: rest =>
    match marshal_base_param byteorder k { ctx with buf := pad_to_align 8 ctx.buf } with
    | (some e, ctx2) => (some e, ctx2)
    | (none, ctx2) =>
      match marshal_param byteorder v ctx2 with
      | (some e, ctx3) => (some e, ctx3)
      | (none, ctx3) => marshal_dict_entries byteorder rest ctx3
termination_by 3 * sizeOf map
decreasing_by
  all_goals simp_wf
  all_goals (try simp [Param.Container.sizeOf_spec])
  all_goals omega

/-- `marshal_container_param` from `container.rs`: validate element
signatures for arrays and dicts, then marshal. -/
def marshal_container_param (byteorder : ByteOrder) (c : ParamContainer) (ctx : MarshalCtx) :
    Option MarshalError × MarshalCtx :=
  match c with
  | .Array element_sig values =>
    match validate_array values element_sig with
    | .error e => (some e, ctx)
    | .ok _ => marshal_array byteorder values element_sig ctx
  | .Struct values => marshal_struct byteorder values ctx
  | .Dict key_sig value_sig map =>
    match validate_dict map key_sig value_sig with
    | .error e => (some e, ctx)
    | .ok _ => marshal_dict byteorder map ctx
  | .Variant sig value => marshal_variant byteorder sig value ctx
termination_by 3 * sizeOf c + 2
decreasing_by
  all_goals simp_wf
  all_goals (try simp [Param.Container.sizeOf_spec])
  all_goals omega
end

/-- Either `ok bytes_consumed` (leading padding included) or
`error (position, kind)` (`validate_raw::ValidationResult`). -/
abbrev ValidationResult := Except (Nat × UnmarshalError) Nat

/-- `validate_marshalled_base` from `validate_raw.rs`: validate one base
value at `offset`, returning the bytes consumed including padding. -/
def validate_marshalled_base (byteorder : ByteOrder) (offset : Nat) (buf : List Nat)
    (sig : Base) : ValidationResult :=
  match align_offset sig.get_alignment buf offset with
  | .error e => .error (offset, e)
  | .ok padding =>
    match sig with
    | .Byte =>
      if buf.length - (offset + padding) = 0 then .error (offset + padding, .NotEnoughBytes)
      else .ok (1 + padding)
    | .Uint16 =>
      if buf.length - (offset + padding) < 2 then .error (offset + padding, .NotEnoughBytes)
      else .ok (2 + padding)
    | .Int16 =>
      if buf.length - (offset + padding) < 2 then .error (offset + padding, .NotEnoughBytes)
      else .ok (2 + padding)
    | .Uint32 =>
      if buf.length - (offset + padding) < 4 then .error (offset + padding, .NotEnoughBytes)
      else .ok (4 + padding)
    | .UnixFd =>
      if buf.length - (offset + padding) < 4 then .error (offset + padding, .NotEnoughBytes)
      else .ok (4 + padding)
    | .Int32 =>
      if buf.length - (offset + padding) < 4 then .error (offset + padding, .NotEnoughBytes)
      else .ok (4 + padding)
    | .Uint64 =>
      if buf.length - (offset + padding) < 8 then .error (offset + padding, .NotEnoughBytes)
      else .ok (8 + padding)
    | .Int64 =>
      if buf.length - (offset + padding) < 8 then .error (offset + padding, .NotEnoughBytes)
      else .ok (8 + padding)
    | .Double =>
      if buf.length - (offset + padding) < 8 then .error (offset + padding, .NotEnoughBytes)
      else .ok (8 + padding)
    | .Boolean =>
      if buf.length - (offset + padding) < 4 then .error (offset + padding, .NotEnoughBytes)
      else
        let offset2 := offset + padding
        match parse_u32 (readBytes buf offset2 4) byteorder with
        | .error e => .error (offset2, e)
        | .ok (_, val) =>
          if val = 0 then .ok (4 + padding)
          else if val = 1 then .ok (4 + padding)
          else .error (offset2, .InvalidBoolean)
    | .String =>
      let offset2 := offset + padding
      match unmarshal_str byteorder (buf.drop offset2) with
      | .error e => .error (offset2, e)
      | .ok (bytes, _) => .ok (bytes + padding)
    | .ObjectPath =>
      let offset2 := offset + padding
      match unmarshal_str byteorder (buf.drop offset2) with
      | .error e => .error (offset2, e)
      | .ok (bytes, string) =>
        if validate_object_path string then .ok (bytes + padding)
        else .error (offset2, .InvalidObjectPath)
    | .Signature =>
      match unmarshal_signature (buf.drop offset) with
      | .error e => .error (offset + padding, e)
      | .ok (bytes, string) =>
        if validate_signature (string.map Char.ofNat) then .ok (bytes + padding)
        else .error (offset, .InvalidSignature)

mutual
/-- `validate_marshalled` from `validate_raw.rs`: dispatch on base or
container. `fuel` bounds the recursion (the Rust loops terminate because
every validated element consumes bytes; one unit of fuel per nesting level
and per loop iteration suffices, see the fuel bounds in the theorems). -/
def validate_marshalled (fuel : Nat) (byteorder : ByteOrder) (offset : Nat) (raw : List Nat)
    (sig : SigType) : ValidationResult :=
  match fuel with
  | 0 => .error (offset, .NotEnoughBytes)
  | fuel + 1 =>
    match sig with
    | .Base b => validate_marshalled_base byteorder offset raw b
    | .Container c => validate_marshalled_container fuel byteorder offset raw c
termination_by structural fuel

/-- `validate_marshalled_container` from `validate_raw.rs`. For arrays and
dicts the element walk recurses on the buffer trimmed to
`offset + declared_content_length`, and for `bytes_always_valid` element
types only divisibility of the content length by the element alignment is
checked. -/
def validate_marshalled_container (fuel : Nat) (byteorder : ByteOrder) (offset : Nat)
    (buf : List Nat) (sig : Container) : ValidationResult :=
  match fuel with
  | 0 => .error (offset, .NotEnoughBytes)
  | fuel + 1 =>
    match sig with
    | .Array elem_sig =>
      match align_offset 4 buf offset with
      | .error e => .error (offset, e)
      | .ok padding =>
        let offset1 := offset + padding
        match parse_u32 (buf.drop offset1) byteorder with
        | .error e => .error (offset1, e)
        | .ok (_, bytes_in_array) =>
          let offset2 := offset1 + 4
          if buf.length - offset2 < bytes_in_array then
            .error (offset2, .NotEnoughBytesForCollection)
          else
            match align_offset elem_sig.get_alignment buf offset2 with
            | .error e => .error (offset2, e)
            | .ok first_elem_padding =>
              let offset3 := offset2 + first_elem_padding
              if buf.length - offset3 < bytes_in_array then
                .error (offset3, .NotEnoughBytesForCollection)
              else if elem_sig.bytes_always_valid then
                if bytes_in_array % elem_sig.get_alignment ≠ 0 then
                  .error (offset3, .NotEnoughBytes)
                else .ok (padding + 4 + first_elem_padding + bytes_in_array)
              else
                match validate_array_elems fuel byteorder
                    (buf.take (offset3 + bytes_in_array)) elem_sig offset3 bytes_in_array 0 with
                | .error e => .error e
                | .ok _ => .ok (padding + 4 + first_elem_padding + bytes_in_array)
    | .Dict key_sig val_sig =>
      match align_offset 4 buf offset with
      | .error e => .error (offset, e)
      | .ok padding =>
        let offset1 := offset + padding
        match parse_u32 (buf.drop offset1) byteorder with
        | .error e => .error (offset1, e)
        | .ok (_, bytes_in_dict) =>
          let offset2 := offset1 + 4
          if buf.length - offset2 < bytes_in_dict then
            .error (offset2, .NotEnoughBytesForCollection)
          else
            match align_offset 8 buf offset2 with
            | .error e => .error (offset2, e)
            | .ok before_elements_padding =>
              let offset3 := offset2 + before_elements_padding
              if buf.length - offset3 < bytes_in_dict then
                .error (offset3, .NotEnoughBytesForCollection)
              else
                match validate_dict_elems fuel byteorder
                    (buf.take (offset3 + bytes_in_dict)) key_sig val_sig offset3 bytes_in_dict 0 with
                | .error e => .error e
                | .ok counter => .ok (padding + before_elements_padding + 4 + counter)
    | .Struct sigs =>
      match align_offset 8 buf offset with
      | .error e => .error (offset, e)
      | .ok padding =>
        match validate_struct_fields fuel byteorder buf (offset + padding) sigs 0 with
        | .error e => .error e
        | .ok counter => .ok (padding + counter)
    | .Variant =>
      match unmarshal_signature (buf.drop offset) with
      | .error e => .error (offset, e)
      | .ok (sig_bytes_used, sig_bytes) =>
        match parse_description (sig_bytes.map Char.ofNat) with
        | .error e => .error (offset, e.into_unmarshal)
        | .ok sigs =>
          match sigs with
          | [sig1] =>
            match validate_marshalled fuel byteorder (offset + sig_bytes_used) buf sig1 with
            | .error e => .error e
            | .ok param_bytes_used => .ok (sig_bytes_used + param_bytes_used)
          | _ => .error (offset, .WrongSignature)
termination_by structural fuel

/-- The element `while` loop of the array branch: validate elements of the
trimmed buffer until `counter` reaches the declared content length;
returns the final counter. -/
def validate_array_elems (fuel : Nat) (byteorder : ByteOrder) (bufT : List Nat)
    (elem_sig : SigType) (offset target counter : Nat) : ValidationResult :=
  match fuel with
  | 0 => .error (offset + counter, .NotEnoughBytes)
  | fuel + 1 =>
    if counter < target then
      match validate_marshalled fuel byteorder (offset + counter) bufT elem_sig with
      | .error e => .error e
      | .ok bytes_used =>
        validate_array_elems fuel byteorder bufT elem_sig offset target (counter + bytes_used)
    else .ok counter
termination_by structural fuel

/-- The entry `while` loop of the dict branch: pad to 8, validate the base
key and the value, until `counter` reaches the declared content length. -/
def validate_dict_elems (fuel : Nat) (byteorder : ByteOrder) (buf_for_dict : List Nat)
    (key_sig : Base) (val_sig : SigType) (offset target counter : Nat) : ValidationResult :=
  match fuel with
  | 0 => .error (offset + counter, .NotEnoughBytes)
  | fuel + 1 =>
    if counter < target then
      match align_offset 8 buf_for_dict (offset + counter) with
      | .error e => .error (offset + counter, e)
      | .ok element_padding =>
        let counter1 := counter + element_padding
        match validate_marshalled_base byteorder (offset + counter1) buf_for_dict key_sig with
        | .error e => .error e
        | .ok key_bytes =>
          let counter2 := counter1 + key_bytes
          match validate_marshalled fuel byteorder (offset + counter2) buf_for_dict val_sig with
          | .error e => .error e
          | .ok val_bytes =>
            validate_dict_elems fuel byteorder buf_for_dict key_sig val_sig offset target
              (counter2 + val_bytes)
    else .ok counter
termination_by structural fuel

/-- The field `for` loop of the struct branch. -/
def validate_struct_fields (fuel : Nat) (byteorder : ByteOrder) (buf : List Nat)
    (offset : Nat) (fields : List SigType) (counter : Nat) : ValidationResult :=
  match fuel with
  | 0 => .error (offset + counter, .NotEnoughBytes)
  | fuel + 1 =>
    match fields with
    | [] => .ok counter
    | f :: rest =>
      match validate_marshalled fuel byteorder (offset + counter) buf f with
      | .error e => .error e
      | .ok bytes_used => validate_struct_fields fuel byteorder buf offset rest (counter + bytes_used)
termination_by structural fuel
end

/-- Following the spec's words for the fast-path comparison: the array
branch of `validate_marshalled_container` with the `bytes_always_valid`
fast path removed, so that the element-wise walk always runs. Used only to
state and prove the equivalence claim; the executable validator above is
the one translated from the source. -/
def validate_array_elementwise (fuel : Nat) (byteorder : ByteOrder) (offset : Nat)
    (buf : List Nat) (elem_sig : SigType) : ValidationResult :=
  match fuel with
  | 0 => .error (offset, .NotEnoughBytes)
  | fuel + 1 =>
    match align_offset 4 buf offset with
    | .error e => .error (offset, e)
    | .ok padding =>
      let offset1 := offset + padding
      match parse_u32 (buf.drop offset1) byteorder with
      | .error e => .error (offset1, e)
      | .ok (_, bytes_in_array) =>
        let offset2 := offset1 + 4
        if buf.length - offset2 < bytes_in_array then
          .error (offset2, .NotEnoughBytesForCollection)
        else
          match align_offset elem_sig.get_alignment buf offset2 with
          | .error e => .error (offset2, e)
          | .ok first_elem_padding =>
            let offset3 := offset2 + first_elem_padding
            if buf.length - offset3 < bytes_in_array then
              .error (offset3, .NotEnoughBytesForCollection)
            else
              match validate_array_elems fuel byteorder
                  (buf.take (offset3 + bytes_in_array)) elem_sig offset3 bytes_in_array 0 with
              | .error e => .error e
              | .ok _ => .ok (padding + 4 + first_elem_padding + bytes_in_array)

/-- Types a message might have (`MessageType`). -/
inductive MessageType
  | Signal
  | Error
  | Call
  | Reply
  | Invalid
deriving DecidableEq, Repr

/-- Flags that can be set in the message header (`HeaderFlags`). -/
inductive HeaderFlags
  | NoReplyExpected
  | NoAutoStart
  | AllowInteractiveAuthorization
deriving DecidableEq, Repr

/-- `HeaderFlags::into_raw` from `message_builder.rs`. -/
def HeaderFlags.into_raw : HeaderFlags → Nat
  | .NoReplyExpected => 1
  | .NoAutoStart => 2
  | .AllowInteractiveAuthorization => 4

/-- `HeaderFlags::is_set` from `message_builder.rs`, translated exactly:
the source compares `flags & self.into_raw() == 1`. -/
def HeaderFlags.is_set (self : HeaderFlags) (flags : Nat) : Bool :=
  flags &&& self.into_raw = 1

/-- `HeaderFlags::set`. -/
def HeaderFlags.set (self : HeaderFlags) (flags : Nat) : Nat :=
  flags ||| self.into_raw

/-- `HeaderFlags::unset` (`flags &= 0xFF - bit`). -/
def HeaderFlags.unset (self : HeaderFlags) (flags : Nat) : Nat :=
  flags &&& (255 - self.into_raw)

/-- The dynamic part of a dbus message header (`DynamicHeader`). -/
structure DynamicHeader where
  interface : Option String := none
  member : Option String := none
  object : Option String := none
  destination : Option String := none
  serial : Option Nat := none
  sender : Option String := none
  signature : Option String := none
  error_name : Option String := none
  response_serial : Option Nat := none
  num_fds : Option Nat := none
deriving DecidableEq, Repr

/-- The message body under construction (`MarshalledMessageBody`). The
`SignatureBuffer` is modelled by its character content. -/
structure MarshalledMessageBody where
  buf : List Nat
  raw_fds : List Nat
  sig : List Char
  byteorder : ByteOrder
deriving DecidableEq, Repr

namespace MarshalledMessageBody

/-- `MarshalledMessageBody::new`. -/
def new : MarshalledMessageBody :=
  { buf := [], raw_fds := [], sig := [], byteorder := ByteOrder.NATIVE }

/-- `MarshalledMessageBody::with_byteorder`. -/
def with_byteorder (b : ByteOrder) : MarshalledMessageBody :=
  { buf := [], raw_fds := [], sig := [], byteorder := b }

/-- `MarshalledMessageBody::from_parts`. -/
def from_parts (buf : List Nat) (raw_fds : List Nat) (sig : List Char)
    (byteorder : ByteOrder) : MarshalledMessageBody :=
  { buf := buf, raw_fds := raw_fds, sig := sig, byteorder := byteorder }

/-- `MarshalledMessageBody::reset` from `message_builder.rs`: the source
clears `sig` and `buf` (and nothing else). -/
def reset (self : MarshalledMessageBody) : MarshalledMessageBody :=
  { self with sig := [], buf := [] }

end MarshalledMessageBody

/-- Modelled from the spec (section 3): `SignatureBuffer::truncate`.
Truncating back to a previous length of the buffer returns `Ok`; the spec
permits rejecting a truncation that would split a descriptor, but every
truncate in the covered code cuts at a previous parameter boundary, so the
always-accept model is within the spec's latitude. An out-of-range length
is rejected. -/
def sig_truncate (s : List Char) (n : Nat) : Except MarshalError (List Char) :=
  if n ≤ s.length then .ok (s.take n) else .error .InvalidSignature

/-- A value together with its `Marshal` trait implementation, as passed to
`push_param`: the `marshal` method (which may mutate the context before
failing, like the Rust `&mut` context) and the `sig_str` fragment the type
appends. -/
structure MarshalImpl where
  marshal : ByteOrder → MarshalCtx → Option MarshalError × MarshalCtx
  sig_str : List Char

namespace MarshalledMessageBody

/-- `MarshalledMessageBody::push_param`: marshal into the body's context,
then append the signature fragment. On a marshal error the already written
context bytes are kept — the source has no rollback here. -/
def push_param (p : MarshalImpl) (self : MarshalledMessageBody) :
    Option MarshalError × MarshalledMessageBody :=
  match p.marshal self.byteorder { buf := self.buf, fds := self.raw_fds } with
  | (some e, ctx2) => (some e, { self with buf := ctx2.buf, raw_fds := ctx2.fds })
  | (none, ctx2) =>
    (none, { self with buf := ctx2.buf, raw_fds := ctx2.fds, sig := self.sig ++ p.sig_str })

/-- `MarshalledMessageBody::push_mult_helper`: snapshot the three lengths,
run the push calls, and on error truncate `sig`, `buf` and `raw_fds` back
to the snapshot (the `?` on `sig.truncate` propagates a truncate error
before `buf` and `raw_fds` are truncated). -/
def push_mult_helper (push_calls : MarshalledMessageBody → Option MarshalError × MarshalledMessageBody)
    (self : MarshalledMessageBody) : Option MarshalError × MarshalledMessageBody :=
  let sig_len := self.sig.length
  let buf_len := self.buf.length
  let fds_len := self.raw_fds.length
  match push_calls self with
  | (none, b2) => (none, b2)
  | (some e, b2) =>
    match sig_truncate b2.sig sig_len with
    | .error e2 => (some e2, b2)
    | .ok sig2 =>
      (some e, { b2 with sig := sig2, buf := b2.buf.take buf_len, raw_fds := b2.raw_fds.take fds_len })

/-- `MarshalledMessageBody::push_param2`. -/
def push_param2 (p1 p2 : MarshalImpl) (self : MarshalledMessageBody) :
    Option MarshalError × MarshalledMessageBody :=
  push_mult_helper
    (fun msg =>
      match push_param p1 msg with
      | (some e, b2) => (some e, b2)
      | (none, b2) => push_param p2 b2)
    self

/-- `MarshalledMessageBody::push_param3`. -/
def push_param3 (p1 p2 p3 : MarshalImpl) (self : MarshalledMessageBody) :
    Option MarshalError × MarshalledMessageBody :=
  push_mult_helper
    (fun msg =>
      match push_param p1 msg with
      | (some e, b2) => (some e, b2)
      | (none, b2) =>
        match push_param p2 b2 with
        | (some e, b3) => (some e, b3)
        | (none, b3) => push_param p3 b3)
    self

/-- `MarshalledMessageBody::push_param4`. -/
def push_param4 (p1 p2 p3 p4 : MarshalImpl) (self : MarshalledMessageBody) :
    Option MarshalError × MarshalledMessageBody :=
  push_mult_helper
    (fun msg =>
      match push_param p1 msg with
      | (some e, b2) => (some e, b2)
      | (none, b2) =>
        match push_param p2 b2 with
        | (some e, b3) => (some e, b3)
        | (none, b3) =>
          match push_param p3 b3 with
          | (some e, b4) => (some e, b4)
          | (none, b4) => push_param p4 b4)
    self

/-- `MarshalledMessageBody::push_param5`. -/
def push_param5 (p1 p2 p3 p4 p5 : MarshalImpl) (self : MarshalledMessageBody) :
    Option MarshalError × MarshalledMessageBody :=
  push_mult_helper
    (fun msg =>
      match push_param p1 msg with
      | (some e, b2) => (some e, b2)
      | (none, b2) =>
        match push_param p2 b2 with
        | (some e, b3) => (some e, b3)
        | (none, b3) =>
          match push_param p3 b3 with
          | (some e, b4) => (some e, b4)
          | (none, b4) =>
            match push_param p4 b4 with
            | (some e, b5) => (some e, b5)
            | (none, b5) => push_param p5 b5)
    self

/-- `MarshalledMessageBody::push_params`: push each parameter in turn, with
no rollback scope. -/
def push_params (ps : List MarshalImpl) (self : MarshalledMessageBody) :
    Option MarshalError × MarshalledMessageBody :=
  match ps with
  | [] => (none, self)
  | p :: rest =>
    match push_param p self with
    | (some e, b2) => (some e, b2)
    | (none, b2) => push_params rest b2

/-- `MarshalledMessageBody::push_old_param`: marshal a dynamic `Param` via
`marshal_param`, then append its signature characters. No rollback. -/
def push_old_param (p : Param) (self : MarshalledMessageBody) :
    Option MarshalError × MarshalledMessageBody :=
  match marshal_param self.byteorder p { buf := self.buf, fds := self.raw_fds } with
  | (some e, ctx2) => (some e, { self with buf := ctx2.buf, raw_fds := ctx2.fds })
  | (none, ctx2) =>
    (none, { self with buf := ctx2.buf, raw_fds := ctx2.fds, sig := self.sig ++ p.sig.to_str })

/-- `MarshalledMessageBody::push_old_params`: `push_old_param` on each
element of the slice in turn. -/
def push_old_params (ps : List Param) (self : MarshalledMessageBody) :
    Option MarshalError × MarshalledMessageBody :=
  match ps with
  | [] => (none, self)
  | p :: rest =>
    match push_old_param p self with
    | (some e, b2) => (some e, b2)
    | (none, b2) => push_old_params rest b2

/-- Modelled from the spec and the free `marshal_as_variant` in
`message_builder.rs`: wrap the signature check of `SignatureWrapper::new`,
write the value's signature as a `g` field, then marshal the value. -/
def marshal_as_variant (p : MarshalImpl) (byteorder : ByteOrder) (ctx : MarshalCtx) :
    Option MarshalError × MarshalCtx :=
  if ¬ validate_signature p.sig_str then (some .InvalidSignature, ctx)
  else
    let buf2 := ctx.buf ++ [p.sig_str.length] ++ p.sig_str.map (fun c => c.toNat) ++ [0]
    p.marshal byteorder { ctx with buf := buf2 }

/-- `MarshalledMessageBody::push_variant` from `message_builder.rs`: the
literal character `v` is pushed onto the signature *before* the interior
variant marshal runs, and is not removed on error. -/
def push_variant (p : MarshalImpl) (self : MarshalledMessageBody) :
    Option MarshalError × MarshalledMessageBody :=
  let self2 := { self with sig := self.sig ++ ['v'] }
  match marshal_as_variant p self2.byteorder { buf := self2.buf, fds := self2.raw_fds } with
  | (some e, ctx2) => (some e, { self2 with buf := ctx2.buf, raw_fds := ctx2.fds })
  | (none, ctx2) => (none, { self2 with buf := ctx2.buf, raw_fds := ctx2.fds })

end MarshalledMessageBody

/-- A message being built or received (`MarshalledMessage`). -/
structure MarshalledMessage where
  body : MarshalledMessageBody
  dynheader : DynamicHeader
  typ : MessageType
  flags : Nat
deriving DecidableEq, Repr

/-- The `Marshal` impl for `String`/`&str` from `traits/base.rs`: align to
4, then `write_string`; it never fails. Its `sig_str` pushes `s`. -/
def string_marshal_impl (s : String) : MarshalImpl :=
  { marshal := fun byteorder ctx =>
      (none, { ctx with buf := write_string s byteorder (pad_to_align 4 ctx.buf) }),
    sig_str := ['s'] }

/-- `DynamicHeader::make_error_response` from `message_builder.rs`. The
source calls `.unwrap()` on the `push_param` of the error message; `none`
models that panic. -/
def DynamicHeader.make_error_response (self : DynamicHeader) (error_name : String)
    (error_msg : Option String) : Option MarshalledMessage :=
  let err_resp : MarshalledMessage :=
    { typ := .Reply,
      dynheader :=
        { interface := none, member := none, object := none,
          destination := self.sender, serial := none, num_fds := none,
          sender := none, signature := none, response_serial := self.serial,
          error_name := some error_name },
      flags := 0,
      body := MarshalledMessageBody.new }
  match error_msg with
  | none => some err_resp
  | some text =>
    match err_resp.body.push_param (string_marshal_impl text) with
    | (some _, _) => none
    | (none, b2) => some { err_resp with body := b2 }

/-- `DynamicHeader::make_response` from `message_builder.rs`. -/
def DynamicHeader.make_response (self : DynamicHeader) : MarshalledMessage :=
  { typ := .Reply,
    dynheader :=
      { interface := none, member := none, object := none,
        destination := self.sender, serial := none, num_fds := none,
        sender := none, signature := none, response_serial := self.serial,
        error_name := none },
    flags := 0,
    body := MarshalledMessageBody.new }

/-- The read cursor for unmarshalling (`UnmarshalContext`). -/
structure UnmarshalContext where
  byteorder : ByteOrder
  buf : List Nat
  offset : Nat
  fds : List Nat
deriving DecidableEq, Repr

/-- A type together with its `Unmarshal`/`Signature` trait implementation,
as instantiated at `get::<T>()`: the signature predicate `has_sig` and the
`unmarshal` method returning `(bytes_consumed, value)`. -/
structure UnmarshalImpl (α : Type) where
  has_sig : List Char → Bool
  unmarshal : UnmarshalContext → Except UnmarshalError (Nat × α)

/-- The positional parser over a body (`MessageBodyParser`): indices into
the body's `buf` and `sig`. -/
structure MessageBodyParser where
  buf_idx : Nat
  sig_idx : Nat
deriving DecidableEq, Repr

namespace MessageBodyParser

/-- `MessageBodyParser::new`. -/
def new : MessageBodyParser := { buf_idx := 0, sig_idx := 0 }

/-- `MessageBodyParser::get_next_sig`: the next top-level signature token,
if any is left (`SignatureIter::next` starting at `sig_idx`). -/
def get_next_sig (body : MarshalledMessageBody) (self : MessageBodyParser) :
    Option (List Char) :=
  let cs := body.sig.drop self.sig_idx
  if cs.isEmpty then none else some (cs.take (token_len cs))

/-- `MessageBodyParser::sigs_left`: the number of top-level types left. -/
def sigs_left (body : MarshalledMessageBody) (self : MessageBodyParser) : Nat :=
  token_count (body.sig.drop self.sig_idx)

/-- `MessageBodyParser::get` from `message_builder.rs`: `EndOfMessage` when
no token is left; `WrongSignature` when `T::has_sig` rejects the head
token; otherwise unmarshal at `buf_idx` and advance both indices on
success. The returned parser state is unchanged on every error. -/
def get {α : Type} (T : UnmarshalImpl α) (body : MarshalledMessageBody)
    (self : MessageBodyParser) : Except UnmarshalError α × MessageBodyParser :=
  match get_next_sig body self with
  | some expected_sig =>
    if ¬ T.has_sig expected_sig then (.error .WrongSignature, self)
    else
      match T.unmarshal { byteorder := body.byteorder, buf := body.buf,
                          offset := self.buf_idx, fds := body.raw_fds } with
      | .ok (bytes, res) =>
        (.ok res, { buf_idx := self.buf_idx + bytes, sig_idx := self.sig_idx + expected_sig.length })
      | .error e => (.error e, self)
  | none => (.error .EndOfMessage, self)

/-- `MessageBodyParser::get_mult_helper` from `message_builder.rs`:
`EndOfMessage` up front when `count` exceeds `sigs_left`; on any error of
the combined get calls, restore `(buf_idx, sig_idx)` to the snapshot. -/
def get_mult_helper {γ : Type} (count : Nat)
    (get_calls : MessageBodyParser → Except UnmarshalError γ × MessageBodyParser)
    (body : MarshalledMessageBody) (self : MessageBodyParser) :
    Except UnmarshalError γ × MessageBodyParser :=
  if count > sigs_left body self then (.error .EndOfMessage, self)
  else
    match get_calls self with
    | (.ok ret, s2) => (.ok ret, s2)
    | (.error e, _) => (.error e, { buf_idx := self.buf_idx, sig_idx := self.sig_idx })

/-- `MessageBodyParser::get2`. -/
def get2 {α1 α2 : Type} (T1 : UnmarshalImpl α1) (T2 : UnmarshalImpl α2)
    (body : MarshalledMessageBody) (self : MessageBodyParser) :
    Except UnmarshalError (α1 × α2) × MessageBodyParser :=
  get_mult_helper 2
    (fun p =>
      match get T1 body p with
      | (.error e, p1) => (.error e, p1)
      | (.ok r1, p1) =>
        match get T2 body p1 with
        | (.error e, p2) => (.error e, p2)
        | (.ok r2, p2) => (.ok (r1, r2), p2))
    body self

/-- `MessageBodyParser::get3`. -/
def get3 {α1 α2 α3 : Type} (T1 : UnmarshalImpl α1) (T2 : UnmarshalImpl α2)
    (T3 : UnmarshalImpl α3) (body : MarshalledMessageBody) (self : MessageBodyParser) :
    Except UnmarshalError (α1 × α2 × α3) × MessageBodyParser :=
  get_mult_helper 3
    (fun p =>
      match get T1 body p with
      | (.error e, p1) => (.error e, p1)
      | (.ok r1, p1) =>
        match get T2 body p1 with
        | (.error e, p2) => (.error e, p2)
        | (.ok r2, p2) =>
          match get T3 body p2 with
          | (.error e, p3) => (.error e, p3)
          | (.ok r3, p3) => (.ok (r1, r2, r3), p3))
    body self

/-- `MessageBodyParser::get4`. -/
def get4 {α1 α2 α3 α4 : Type} (T1 : UnmarshalImpl α1) (T2 : UnmarshalImpl α2)
    (T3 : UnmarshalImpl α3) (T4 : UnmarshalImpl α4) (body : MarshalledMessageBody)
    (self : MessageBodyParser) :
    Except UnmarshalError (α1 × α2 × α3 × α4) × MessageBodyParser :=
  get_mult_helper 4
    (fun p =>
      match get T1 body p with
      | (.error e, p1) => (.error e, p1)
      | (.ok r1, p1) =>
        match get T2 body p1 with
        | (.error e, p2) => (.error e, p2)
        | (.ok r2, p2) =>
          match get T3 body p2 with
          | (.error e, p3) => (.error e, p3)
          | (.ok r3, p3) =>
            match get T4 body p3 with
            | (.error e, p4) => (.error e, p4)
            | (.ok r4, p4) => (.ok (r1, r2, r3, r4), p4))
    body self

/-- `MessageBodyParser::get5`. -/
def get5 {α1 α2 α3 α4 α5 : Type} (T1 : UnmarshalImpl α1) (T2 : UnmarshalImpl α2)
    (T3 : UnmarshalImpl α3) (T4 : UnmarshalImpl α4) (T5 : UnmarshalImpl α5)
    (body : MarshalledMessageBody) (self : MessageBodyParser) :
    Except UnmarshalError (α1 × α2 × α3 × α4 × α5) × MessageBodyParser :=
  get_mult_helper 5
    (fun p =>
      match get T1 body p with
      | (.error e, p1) => (.error e, p1)
      | (.ok r1, p1) =>
        match get T2 body p1 with
        | (.error e, p2) => (.error e, p2)
        | (.ok r2, p2) =>
          match get T3 body p2 with
          | (.error e, p3) => (.error e, p3)
          | (.ok r3, p3) =>
            match get T4 body p3 with
            | (.error e, p4) => (.error e, p4)
            | (.ok r4, p4) =>
              match get T5 body p4 with
              | (.error e, p5) => (.error e, p5)
              | (.ok r5, p5) => (.ok (r1, r2, r3, r4, r5), p5))
    body self

/-- `MessageBodyParser::get_param` from `message_builder.rs`. The source
calls `parse_description(sig_str).unwrap()[0]`; `none` models the panic of
`unwrap` on a token that fails to parse (and of `[0]` on an empty parse,
which cannot occur for a nonempty token). The dynamic unmarshaller
`unmarshal_with_sig` lives outside `src/` and is passed as `unm`
(modelled from the spec: it returns `(bytes_consumed, param)` or an
error). -/
def get_param (unm : SigType → UnmarshalContext → Except UnmarshalError (Nat × Param))
    (body : MarshalledMessageBody) (self : MessageBodyParser) :
    Option (Except UnmarshalError Param × MessageBodyParser) :=
  match get_next_sig body self with
  | some sig_str =>
    match parse_description sig_str with
    | .error _ => none
    | .ok [] => none
    | .ok (sig1 :: _) =>
      match unm sig1 { byteorder := body.byteorder, buf := body.buf,
                       offset := self.buf_idx, fds := body.raw_fds } with
      | .ok (bytes, res) =>
        some (.ok res, { buf_idx := self.buf_idx + bytes, sig_idx := self.sig_idx + sig_str.length })
      | .error e => some (.error e, self)
  | none => some (.error .EndOfMessage, self)

end MessageBodyParser

/-- The `Unmarshal` impl for `u32`: `has_sig` from `traits/base.rs`
(`sig.chars().nth(0) == Some('u')`); `unmarshal` modelled from the spec
(section 4.D): align to 4 (verifying padding), then read the u32. -/
def u32_unmarshal_impl : UnmarshalImpl Nat :=
  { has_sig := fun s => s.head? = some 'u',
    unmarshal := fun ctx =>
      match align_offset 4 ctx.buf ctx.offset with
      | .error e => .error e
      | .ok padding =>
        match parse_u32 (ctx.buf.drop (ctx.offset + padding)) ctx.byteorder with
        | .error e => .error e
        | .ok (_, v) => .ok (padding + 4, v) }

/-- The end of the declared content region of an array at `offset`:
`offset + padding + 4 + first_elem_padding + declared_content_length`,
when the array header can be read (mirrors the header steps of the array
branch of `validate_marshalled_container`). Used to state the containment
property of the validator. -/
def array_bound (byteorder : ByteOrder) (buf : List Nat) (offset : Nat)
    (elem_sig : SigType) : Option Nat :=
  match align_offset 4 buf offset with
  | .error _ => none
  | .ok padding =>
    let offset1 := offset + padding
    match parse_u32 (buf.drop offset1) byteorder with
    | .error _ => none
    | .ok (_, len) =>
      let offset2 := offset1 + 4
      if buf.length - offset2 < len then none
      else
        match align_offset elem_sig.get_alignment buf offset2 with
        | .error _ => none
        | .ok fpad =>
          let offset3 := offset2 + fpad
          if buf.length - offset3 < len then none else some (offset3 + len)

/-- The end of the declared content region of a dict at `offset` (entries
align to 8), mirroring the header steps of the dict branch. -/
def dict_bound (byteorder : ByteOrder) (buf : List Nat) (offset : Nat) : Option Nat :=
  match align_offset 4 buf offset with
  | .error _ => none
  | .ok padding =>
    let offset1 := offset + padding
    match parse_u32 (buf.drop offset1) byteorder with
    | .error _ => none
    | .ok (_, len) =>
      let offset2 := offset1 + 4
      if buf.length - offset2 < len then none
      else
        match align_offset 8 buf offset2 with
        | .error _ => none
        | .ok fpad =>
          let offset3 := offset2 + fpad
          if buf.length - offset3 < len then none else some (offset3 + len)

/-- The buffer of the source test `test_array_element_overflow`: an `as`
array claiming 10 content bytes whose single string element claims 10
bytes and would run past the array's end. -/
def overflow_array_buf : List Nat :=
  [10, 0, 0, 0, 10, 0, 0, 0] ++ List.replicate 10 97 ++ [0]

/-- One marshal context extends another: `buf` and `fds` only grew. -/
def CtxExtends (a b : MarshalCtx) : Prop :=
  (∃ t, b.buf = a.buf ++ t) ∧ (∃ t, b.fds = a.fds ++ t)

/-- One body extends another: `buf`, `raw_fds` and `sig` only grew. -/
def BodyExtends (a b : MarshalledMessageBody) : Prop :=
  (∃ t, b.buf = a.buf ++ t) ∧ (∃ t, b.raw_fds = a.raw_fds ++ t) ∧ (∃ t, b.sig = a.sig ++ t)

/-- A `Marshal` implementation only appends to the context, whatever the
outcome (the contract every real `Marshal` impl of the crate satisfies:
marshalling writes at the end of the buffer). -/
def MarshalAppends (p : MarshalImpl) : Prop :=
  ∀ byteorder ctx, CtxExtends ctx (p.marshal byteorder ctx).2

/-- A signature type of `n` nested arrays around a byte: its signature
string has `n + 1` characters, so `deep_array_sig 256` overflows the
255-byte signature field limit. -/
def deep_array_sig : Nat → SigType
  | 0 => .Base .Byte
  | n + 1 => .Container (.Array (deep_array_sig n))

/-- A dynamic parameter whose marshalling fails only after bytes have been
written: an array of one variant whose contained type's signature is 257
characters long, so the interior `marshal_signature` fails with `TooLong`
after `marshal_array` has already written its four length bytes. -/
def c1_bad_param : Param :=
  .Container (.Array (.Container .Variant)
    [.Container (.Variant (deep_array_sig 256) (.Base (.Byte 0)))])

/-- A dynamic byte parameter (used for arbitrarily long arrays). -/
def byte_param : Param := .Base (.Byte 0)

/-- A dict map of byte keys and byte values built from a list of pairs. -/
def byte_dict_map (l : List (Nat × Nat)) : List (BaseVal × Param) :=
  l.map (fun ab => (BaseVal.Byte ab.1, Param.Base (BaseVal.Byte ab.2)))

/-- Test fixture: a custom `Marshal` impl that succeeds, appending one
byte. -/
def ok_byte_marshal_impl : MarshalImpl :=
  { marshal := fun _ ctx => (none, { ctx with buf := ctx.buf ++ [1] }),
    sig_str := ['y'] }

/-- Test fixture: a custom `Marshal` impl that writes a byte and then
reports an error, exercising the rollback paths. -/
def failing_marshal_impl : MarshalImpl :=
  { marshal := fun _ ctx => (some .TooLong, { ctx with buf := ctx.buf ++ [7] }),
    sig_str := ['y'] }

/-- Test fixture: a dynamic unmarshaller that consumes nothing and returns
a byte parameter (get_param is parametric in the out-of-src
`unmarshal_with_sig`; any function of its type will do for witnesses). -/
def trivial_unmarshal_with_sig : SigType → UnmarshalContext → Except UnmarshalError (Nat × Param) :=
  fun _ _ => .ok (0, byte_param)

/-! Helper lemmas. -/

/-- A token returned by `get_next_sig` is never empty. -/
theorem get_next_sig_ne_nil (body : MarshalledMessageBody) (st : MessageBodyParser)
    (tok : List Char) (h : MessageBodyParser.get_next_sig body st = some tok) : tok ≠ [] := by
  unfold MessageBodyParser.get_next_sig at h
  set cs := body.sig.drop st.sig_idx with hcs
  by_cases he : cs.isEmpty
  · simp [he] at h
  · simp [he] at h
    cases hc : cs with
    | nil => simp [hc] at he
    | cons c rest =>
      rw [hc] at h
      simp only [token_len] at h
      intro hnil
      rw [← h] at hnil
      simp at hnil

/-- `parse_many` never returns an empty type list on a nonempty input. -/
theorem parse_many_ok_nil (fuel depth : Nat) (c : Char) (rest : List Char) :
    parse_many fuel depth (c :: rest) ≠ .ok [] := by
  intro h
  cases fuel with
  | zero => simp [parse_many] at h
  | succ fuel =>
    simp only [parse_many] at h
    split at h
    · simp at h
    · split at h <;> simp at h

/-- `parse_description` never returns an empty type list on a nonempty
signature. -/
theorem parse_description_ok_nonempty (s : List Char) (hs : s ≠ []) :
    parse_description s ≠ .ok [] := by
  obtain ⟨c, rest, hc⟩ : ∃ c rest, s = c :: rest := by
    cases s with
    | nil => exact absurd rfl hs
    | cons c rest => exact ⟨c, rest, rfl⟩
  subst hc
  intro h
  unfold parse_description at h
  by_cases hl : (c :: rest).length > 255
  · rw [if_pos hl] at h
    cases h
  · rw [if_neg hl] at h
    exact parse_many_ok_nil _ _ _ _ h

/-! Claim theorems. -/

/-- C2: the claim states the intended contract
`is_set flags = ((flags AND into_raw) != 0)`; the source compares the
masked value against `1`, so `is_set` wrongly returns `false` for
`NoAutoStart` on `flags = 2` and for `AllowInteractiveAuthorization` on
`flags = 4`, while for `NoReplyExpected` (bit 1) the comparison happens to
agree with the claim. This theorem evaluates the code at the failing
inputs and proves the divergence. -/
theorem claim_c2_is_set_defect :
    HeaderFlags.is_set .NoAutoStart 2 = false ∧
    (2 &&& HeaderFlags.into_raw .NoAutoStart ≠ 0) ∧
    HeaderFlags.is_set .AllowInteractiveAuthorization 4 = false ∧
    (4 &&& HeaderFlags.into_raw .AllowInteractiveAuthorization ≠ 0) ∧
    (∀ flags : Nat, HeaderFlags.is_set .NoReplyExpected flags = decide (flags &&& 1 ≠ 0)) := by
  refine ⟨by decide, by decide, by decide, by decide, ?_⟩
  intro flags
  have h : flags &&& 1 = flags % 2 := Nat.and_one_is_mod flags
  have h2 : flags % 2 = 0 ∨ flags % 2 = 1 := by omega
  simp only [HeaderFlags.is_set, HeaderFlags.into_raw, h]
  rcases h2 with h0 | h1
  · simp [h0]
  · simp [h1]

/-- C3 counterexample: the claim says `reset` leaves all three of `buf`,
`raw_fds` and `sig` empty; on a body holding one fd, `raw_fds` is not
empty after `reset`, because the source clears only `sig` and `buf`. -/
theorem counterexample_c3_reset_keeps_fds :
    (MarshalledMessageBody.reset
        (MarshalledMessageBody.from_parts [] [42] [] .littleEndian)).raw_fds ≠ [] := by
  decide

/-- C3 amended: after `reset()`, `buf` and `sig` are empty and `raw_fds`
is exactly what it was before the call. -/
theorem claim_c3_reset (self : MarshalledMessageBody) :
    (MarshalledMessageBody.reset self).buf = [] ∧
    (MarshalledMessageBody.reset self).sig = [] ∧
    (MarshalledMessageBody.reset self).raw_fds = self.raw_fds :=
  ⟨rfl, rfl, rfl⟩

/-- C9: `make_response` returns a Reply whose destination is the received
header's sender, whose response serial is the received serial, and whose
body is empty; `make_error_response` returns the same with the given error
name, and when a message is given it is pushed as a single string
parameter (`sig = "s"`), which never fails or panics for any string. -/
theorem claim_c9_responses (h : DynamicHeader) (name : String) (msg : String) :
    DynamicHeader.make_response h =
      { typ := .Reply,
        dynheader :=
          { interface := none, member := none, object := none,
            destination := h.sender, serial := none, num_fds := none,
            sender := none, signature := none, response_serial := h.serial,
            error_name := none },
        flags := 0,
        body := MarshalledMessageBody.new } ∧
    DynamicHeader.make_error_response h name none =
      some { typ := .Reply,
             dynheader :=
               { interface := none, member := none, object := none,
                 destination := h.sender, serial := none, num_fds := none,
                 sender := none, signature := none, response_serial := h.serial,
                 error_name := some name },
             flags := 0,
             body := MarshalledMessageBody.new } ∧
    DynamicHeader.make_error_response h name (some msg) =
      some { typ := .Reply,
             dynheader :=
               { interface := none, member := none, object := none,
                 destination := h.sender, serial := none, num_fds := none,
                 sender := none, signature := none, response_serial := h.serial,
                 error_name := some name },
             flags := 0,
             body := { buf := write_string msg ByteOrder.NATIVE [],
                       raw_fds := [],
                       sig := ['s'],
                       byteorder := ByteOrder.NATIVE } } := by
  refine ⟨rfl, rfl, ?_⟩
  simp only [DynamicHeader.make_error_response, MarshalledMessageBody.push_param,
    string_marshal_impl, MarshalledMessageBody.new, pad_to_align]
  norm_num

/-- C6: `get::<T>()` fails with `EndOfMessage` when no signature token
remains, fails with `WrongSignature` without advancing when `T::has_sig`
rejects the head token, returns the parser state unchanged in every
failing case, and a subsequent `get::<U>()` with a matching type `U`
succeeds on the same parameter, advancing `buf_idx` by the bytes consumed
and `sig_idx` by the token length. -/
theorem claim_c6_parser_get {α β : Type} (T : UnmarshalImpl α) (U : UnmarshalImpl β)
    (body : MarshalledMessageBody) (st : MessageBodyParser) :
    (MessageBodyParser.get_next_sig body st = none →
      MessageBodyParser.get T body st = (.error .EndOfMessage, st)) ∧
    (∀ tok, MessageBodyParser.get_next_sig body st = some tok → T.has_sig tok = false →
      MessageBodyParser.get T body st = (.error .WrongSignature, st)) ∧
    (∀ e st2, MessageBodyParser.get T body st = (.error e, st2) → st2 = st) ∧
    (∀ tok bytes v, MessageBodyParser.get_next_sig body st = some tok →
      U.has_sig tok = true →
      U.unmarshal { byteorder := body.byteorder, buf := body.buf,
                    offset := st.buf_idx, fds := body.raw_fds } = .ok (bytes, v) →
      MessageBodyParser.get U body st =
        (.ok v, { buf_idx := st.buf_idx + bytes, sig_idx := st.sig_idx + tok.length })) := by
  refine ⟨?_, ?_, ?_, ?_⟩
  · intro h
    simp [MessageBodyParser.get, h]
  · intro tok h hsig
    simp [MessageBodyParser.get, h, hsig]
  · intro e st2 hres
    unfold MessageBodyParser.get at hres
    cases hg : MessageBodyParser.get_next_sig body st with
    | none =>
      rw [hg] at hres
      exact (Prod.mk.injEq _ _ _ _ ▸ hres).2.symm
    | some tok =>
      rw [hg] at hres
      by_cases hs : T.has_sig tok
      · simp only [hs, not_true_eq_false, if_false] at hres
        cases hu : T.unmarshal { byteorder := body.byteorder, buf := body.buf,
                                 offset := st.buf_idx, fds := body.raw_fds } with
        | ok r =>
          rw [hu] at hres
          simp at hres
        | error e2 =>
          rw [hu] at hres
          exact (Prod.mk.injEq _ _ _ _ ▸ hres).2.symm
      · simp only [eq_false_of_ne_true (by simpa using hs), Bool.false_eq_true,
          not_false_eq_true, if_true] at hres
        exact (Prod.mk.injEq _ _ _ _ ▸ hres).2.symm
  · intro tok bytes v hg hsig hu
    simp [MessageBodyParser.get, hg, hsig, hu]

/-- C7: `get_mult_helper` (hence `get2` .. `get5`) first fails with
`EndOfMessage` when the requested count exceeds `sigs_left`, and whenever
it returns any error the parser cursor equals its pre-call value even if
some inner reads had advanced it. The same is stated for the concrete
`get2` .. `get5` wrappers. -/
theorem claim_c7_get_mult_rollback {γ : Type} (count : Nat)
    (get_calls : MessageBodyParser → Except UnmarshalError γ × MessageBodyParser)
    (body : MarshalledMessageBody) (st : MessageBodyParser) :
    (count > MessageBodyParser.sigs_left body st →
      MessageBodyParser.get_mult_helper count get_calls body st = (.error .EndOfMessage, st)) ∧
    (∀ e st2, MessageBodyParser.get_mult_helper count get_calls body st = (.error e, st2) →
      st2 = st) ∧
    (∀ (α1 α2 : Type) (T1 : UnmarshalImpl α1) (T2 : UnmarshalImpl α2),
      (2 > MessageBodyParser.sigs_left body st →
        MessageBodyParser.get2 T1 T2 body st = (.error .EndOfMessage, st)) ∧
      (∀ e st2, MessageBodyParser.get2 T1 T2 body st = (.error e, st2) → st2 = st)) ∧
    (∀ (α1 α2 α3 : Type) (T1 : UnmarshalImpl α1) (T2 : UnmarshalImpl α2)
        (T3 : UnmarshalImpl α3),
      (3 > MessageBodyParser.sigs_left body st →
        MessageBodyParser.get3 T1 T2 T3 body st = (.error .EndOfMessage, st)) ∧
      (∀ e st2, MessageBodyParser.get3 T1 T2 T3 body st = (.error e, st2) → st2 = st)) ∧
    (∀ (α1 α2 α3 α4 : Type) (T1 : UnmarshalImpl α1) (T2 : UnmarshalImpl α2)
        (T3 : UnmarshalImpl α3) (T4 : UnmarshalImpl α4),
      (4 > MessageBodyParser.sigs_left body st →
        MessageBodyParser.get4 T1 T2 T3 T4 body st = (.error .EndOfMessage, st)) ∧
      (∀ e st2, MessageBodyParser.get4 T1 T2 T3 T4 body st = (.error e, st2) → st2 = st)) ∧
    (∀ (α1 α2 α3 α4 α5 : Type) (T1 : UnmarshalImpl α1) (T2 : UnmarshalImpl α2)
        (T3 : UnmarshalImpl α3) (T4 : UnmarshalImpl α4) (T5 : UnmarshalImpl α5),
      (5 > MessageBodyParser.sigs_left body st →
        MessageBodyParser.get5 T1 T2 T3 T4 T5 body st = (.error .EndOfMessage, st)) ∧
      (∀ e st2, MessageBodyParser.get5 T1 T2 T3 T4 T5 body st = (.error e, st2) → st2 = st)) := by
  have hmain : ∀ (δ : Type) (cnt : Nat)
      (gc : MessageBodyParser → Except UnmarshalError δ × MessageBodyParser),
      (cnt > MessageBodyParser.sigs_left body st →
        MessageBodyParser.get_mult_helper cnt gc body st = (.error .EndOfMessage, st)) ∧
      (∀ e st2, MessageBodyParser.get_mult_helper cnt gc body st = (.error e, st2) → st2 = st) := by
    intro δ cnt gc
    constructor
    · intro h
      simp [MessageBodyParser.get_mult_helper, h]
    · intro e st2 hres
      unfold MessageBodyParser.get_mult_helper at hres
      by_cases h : cnt > MessageBodyParser.sigs_left body st
      · rw [if_pos h] at hres
        exact (Prod.mk.injEq _ _ _ _ ▸ hres).2.symm
      · rw [if_neg h] at hres
        cases hg : gc st with
        | mk r s2 =>
          rw [hg] at hres
          cases r with
          | ok v => simp at hres
          | error e2 =>
            simp only at hres
            exact (Prod.mk.injEq _ _ _ _ ▸ hres).2.symm
  refine ⟨(hmain γ count get_calls).1, (hmain γ count get_calls).2, ?_, ?_, ?_, ?_⟩
  · intro α1 α2 T1 T2
    exact ⟨(hmain _ 2 _).1, (hmain _ 2 _).2⟩
  · intro α1 α2 α3 T1 T2 T3
    exact ⟨(hmain _ 3 _).1, (hmain _ 3 _).2⟩
  · intro α1 α2 α3 α4 T1 T2 T3 T4
    exact ⟨(hmain _ 4 _).1, (hmain _ 4 _).2⟩
  · intro α1 α2 α3 α4 α5 T1 T2 T3 T4 T5
    exact ⟨(hmain _ 5 _).1, (hmain _ 5 _).2⟩

/-- C10: `get_param` panics (modelled as `none`) exactly when a signature
token remains whose parse fails — for a body built by `from_parts` with an
invalid next token the `unwrap` of `parse_description` is reached — and
under the precondition that every remaining top-level token parses, the
panic branch is unreachable; in particular a body whose signature is the
invalid token `z` makes `get_param` panic. -/
theorem claim_c10_get_param_panic
    (unm : SigType → UnmarshalContext → Except UnmarshalError (Nat × Param))
    (body : MarshalledMessageBody) (st : MessageBodyParser) :
    ((MessageBodyParser.get_param unm body st).isNone = true ↔
      (∃ tok, MessageBodyParser.get_next_sig body st = some tok ∧
        ∃ e, parse_description tok = .error e)) ∧
    (∀ byteorder, (MessageBodyParser.get_param unm
        (MarshalledMessageBody.from_parts [] [] ['z'] byteorder)
        MessageBodyParser.new).isNone = true) := by
  constructor
  · unfold MessageBodyParser.get_param
    cases hg : MessageBodyParser.get_next_sig body st with
    | none =>
      simp
    | some tok =>
      cases hp : parse_description tok with
      | error e =>
        simp only [hp, Option.isNone_none, true_iff]
        exact ⟨tok, rfl, e, hp⟩
      | ok ts =>
        cases ts with
        | nil => exact absurd hp (parse_description_ok_nonempty tok (get_next_sig_ne_nil body st tok hg))
        | cons s rest =>
          simp only [hp]
          have hrhs : ¬ (∃ tok2, some tok = some tok2 ∧ ∃ e2, parse_description tok2 = .error e2) := by
            rintro ⟨tok2, htok2, e2, hp2⟩
            cases htok2
            rw [hp] at hp2
            cases hp2
          cases hu : unm s { byteorder := body.byteorder, buf := body.buf,
                             offset := st.buf_idx, fds := body.raw_fds } with
          | ok r =>
            obtain ⟨bytes, res⟩ := r
            simp only [hu, Option.isNone_some]
            exact ⟨fun hfalse => absurd hfalse (by simp), fun hr => absurd hr hrhs⟩
          | error e2 =>
            simp only [hu, Option.isNone_some]
            exact ⟨fun hfalse => absurd hfalse (by simp), fun hr => absurd hr hrhs⟩
  · intro byteorder
    rfl

/-- C6 witness: on a body with signature `u` and payload `100u32`, the
typed read succeeds and advances; on an empty signature it fails with
`EndOfMessage`; on signature `s` the `u32` reader fails with
`WrongSignature` leaving the parser at its initial state. -/
theorem witness_c6_get :
    MessageBodyParser.get u32_unmarshal_impl
        (MarshalledMessageBody.from_parts [100, 0, 0, 0] [] ['u'] .littleEndian)
        MessageBodyParser.new = (.ok 100, { buf_idx := 4, sig_idx := 1 }) ∧
    MessageBodyParser.get u32_unmarshal_impl
        (MarshalledMessageBody.from_parts [] [] [] .littleEndian) MessageBodyParser.new
      = (.error .EndOfMessage, MessageBodyParser.new) ∧
    MessageBodyParser.get u32_unmarshal_impl
        (MarshalledMessageBody.from_parts [] [] ['s'] .littleEndian) MessageBodyParser.new
      = (.error .WrongSignature, MessageBodyParser.new) := by
  refine ⟨?_, ?_, ?_⟩
  · exact (claim_c6_parser_get u32_unmarshal_impl u32_unmarshal_impl
      (MarshalledMessageBody.from_parts [100, 0, 0, 0] [] ['u'] .littleEndian)
      MessageBodyParser.new).2.2.2 ['u'] 4 100 (by decide) (by decide) (by decide)
  · exact (claim_c6_parser_get u32_unmarshal_impl u32_unmarshal_impl
      (MarshalledMessageBody.from_parts [] [] [] .littleEndian)
      MessageBodyParser.new).1 (by decide)
  · exact (claim_c6_parser_get u32_unmarshal_impl u32_unmarshal_impl
      (MarshalledMessageBody.from_parts [] [] ['s'] .littleEndian)
      MessageBodyParser.new).2.1 ['s'] (by decide) (by decide)

/-- C7 witness: on a body with one remaining token, `get_mult_helper 2`
fails up front with `EndOfMessage`, and a failing inner read that had
moved the cursor is restored to the pre-call state. -/
theorem witness_c7_get_mult :
    MessageBodyParser.get_mult_helper 2
        (fun _ => ((.error .WrongSignature : Except UnmarshalError Nat),
          { buf_idx := 99, sig_idx := 99 }))
        (MarshalledMessageBody.from_parts [] [] ['u'] .littleEndian) MessageBodyParser.new
      = (.error .EndOfMessage, MessageBodyParser.new) ∧
    ({ buf_idx := 0, sig_idx := 0 } : MessageBodyParser) = MessageBodyParser.new := by
  constructor
  · exact (claim_c7_get_mult_rollback 2
      (fun _ => ((.error .WrongSignature : Except UnmarshalError Nat),
        { buf_idx := 99, sig_idx := 99 }))
      (MarshalledMessageBody.from_parts [] [] ['u'] .littleEndian)
      MessageBodyParser.new).1 (by decide)
  · exact (claim_c7_get_mult_rollback 1
      (fun _ => ((.error .WrongSignature : Except UnmarshalError Nat),
        { buf_idx := 99, sig_idx := 99 }))
      (MarshalledMessageBody.from_parts [] [] ['u'] .littleEndian)
      MessageBodyParser.new).2.1 .WrongSignature { buf_idx := 0, sig_idx := 0 } (by decide)

/-- C10 witness: a body built by `from_parts` with the invalid signature
token `z` makes `get_param` hit the `unwrap` panic branch. -/
theorem witness_c10_get_param :
    (MessageBodyParser.get_param trivial_unmarshal_with_sig
        (MarshalledMessageBody.from_parts [] [] ['z'] .littleEndian)
        MessageBodyParser.new).isNone = true :=
  (claim_c10_get_param_panic trivial_unmarshal_with_sig
    (MarshalledMessageBody.from_parts [] [] ['z'] .littleEndian)
    MessageBodyParser.new).2 .littleEndian

/-- The signature string of `deep_array_sig n` has `n + 1` characters. -/
theorem deep_array_sig_to_str_length (n : Nat) :
    (SigType.to_str (deep_array_sig n)).length = n + 1 := by
  induction n with
  | zero => rfl
  | succ n ih => simp [deep_array_sig, SigType.to_str, Container.to_str, ih]

/-- `BodyExtends` is transitive. -/
theorem body_extends_trans {a b c : MarshalledMessageBody}
    (h1 : BodyExtends a b) (h2 : BodyExtends b c) : BodyExtends a c := by
  obtain ⟨⟨t1, e1⟩, ⟨t2, e2⟩, ⟨t3, e3⟩⟩ := h1
  obtain ⟨⟨u1, f1⟩, ⟨u2, f2⟩, ⟨u3, f3⟩⟩ := h2
  exact ⟨⟨t1 ++ u1, by rw [f1, e1, List.append_assoc]⟩,
         ⟨t2 ++ u2, by rw [f2, e2, List.append_assoc]⟩,
         ⟨t3 ++ u3, by rw [f3, e3, List.append_assoc]⟩⟩

/-- `push_param` with an append-only `Marshal` impl only extends the
body. -/
theorem push_param_extends (p : MarshalImpl) (hp : MarshalAppends p)
    (b : MarshalledMessageBody) :
    BodyExtends b (MarshalledMessageBody.push_param p b).2 := by
  unfold MarshalledMessageBody.push_param
  obtain ⟨⟨t1, h1⟩, ⟨t2, h2⟩⟩ := hp b.byteorder ⟨b.buf, b.raw_fds⟩
  cases hm : p.marshal b.byteorder ⟨b.buf, b.raw_fds⟩ with
  | mk r ctx2 =>
    rw [hm] at h1 h2
    cases r with
    | some e => exact ⟨⟨t1, h1⟩, ⟨t2, h2⟩, ⟨[], by simp⟩⟩
    | none => exact ⟨⟨t1, h1⟩, ⟨t2, h2⟩, ⟨p.sig_str, rfl⟩⟩

/-- When the combined push calls only extend the body, `push_mult_helper`
restores `buf`, `raw_fds`, and `sig` exactly on any error. -/
theorem push_mult_helper_restores
    (pc : MarshalledMessageBody → Option MarshalError × MarshalledMessageBody)
    (hext : ∀ b, BodyExtends b (pc b).2) (self : MarshalledMessageBody) :
    ∀ e b2, MarshalledMessageBody.push_mult_helper pc self = (some e, b2) →
      b2.buf = self.buf ∧ b2.raw_fds = self.raw_fds ∧ b2.sig = self.sig := by
  intro e b2 h
  unfold MarshalledMessageBody.push_mult_helper at h
  cases hc : pc self with
  | mk r x =>
    obtain ⟨⟨t1, h1⟩, ⟨t2, h2⟩, ⟨t3, h3⟩⟩ := hext self
    rw [hc] at h h1 h2 h3
    cases r with
    | none => simp at h
    | some e1 =>
      simp only at h h1 h2 h3
      have htr : sig_truncate x.sig self.sig.length = .ok self.sig := by
        unfold sig_truncate
        rw [if_pos (by rw [h3]; simp)]
        rw [h3, List.take_left]
      simp only [htr] at h
      have hb2 := (Prod.mk.injEq _ _ _ _ ▸ h).2
      refine ⟨?_, ?_, ?_⟩
      · rw [← hb2]
        show x.buf.take self.buf.length = self.buf
        rw [h1, List.take_left]
      · rw [← hb2]
        show x.raw_fds.take self.raw_fds.length = self.raw_fds
        rw [h2, List.take_left]
      · rw [← hb2]

/-- C1 counterexample: the claim says every `push_*` is atomic, but
`push_old_param` has no rollback: pushing an array containing a variant
whose contained type's signature is longer than 255 characters fails with
`TooLong` after the array's four length bytes have been written, leaving
`buf` at length 4 instead of its pre-call length 0. -/
theorem counterexample_c1_push_old_param_no_rollback :
    MarshalledMessageBody.push_old_param c1_bad_param MarshalledMessageBody.new
      = (some .TooLong,
         { buf := [0, 0, 0, 0], raw_fds := [], sig := [], byteorder := ByteOrder.NATIVE }) ∧
    MarshalledMessageBody.new.buf.length = 0 := by
  refine ⟨?_, rfl⟩
  have hsig : marshal_signature (SigType.to_str (deep_array_sig 256)) [0, 0, 0, 0]
      = .error .TooLong := by
    unfold marshal_signature
    rw [if_pos (by rw [deep_array_sig_to_str_length]; omega)]
  have hvar : marshal_variant ByteOrder.NATIVE (deep_array_sig 256) (.Base (.Byte 0))
      ⟨[0, 0, 0, 0], []⟩ = (some .TooLong, ⟨[0, 0, 0, 0], []⟩) := by
    simp [marshal_variant, hsig]
  have hlist : marshal_param_list ByteOrder.NATIVE
      [.Container (.Variant (deep_array_sig 256) (.Base (.Byte 0)))] ⟨[0, 0, 0, 0], []⟩
      = (some .TooLong, ⟨[0, 0, 0, 0], []⟩) := by
    simp [marshal_param_list, marshal_param, marshal_container_param, hvar]
  have harr : marshal_array ByteOrder.NATIVE
      [.Container (.Variant (deep_array_sig 256) (.Base (.Byte 0)))] (.Container .Variant)
      ⟨[], []⟩ = (some .TooLong, ⟨[0, 0, 0, 0], []⟩) := by
    rw [marshal_array]
    norm_num [pad_to_align, SigType.get_alignment, Container.get_alignment]
    simp only [hlist]
  have hva : validate_array [.Container (.Variant (deep_array_sig 256) (.Base (.Byte 0)))]
      (.Container .Variant) = .ok () := by decide
  unfold MarshalledMessageBody.push_old_param
  have hmp : marshal_param ByteOrder.NATIVE c1_bad_param ⟨[], []⟩
      = (some .TooLong, ⟨[0, 0, 0, 0], []⟩) := by
    rw [c1_bad_param, marshal_param, marshal_container_param, hva]
    exact harr
  simp [MarshalledMessageBody.new, hmp]

/-- C1 amended: only the multi-push operations are atomic. Whenever the
combined push calls only extend the body (which every `push_param` with an
append-only `Marshal` impl does), `push_mult_helper` — and hence
`push_param2` … `push_param5` — restores the lengths of `buf`, `raw_fds`
and `sig` to their pre-call values on any error. `push_param`,
`push_params`, `push_variant`, `push_old_param` and `push_old_params`
perform no rollback (see the counterexample). -/
theorem claim_c1_multi_push_atomicity :
    (∀ pc self, (∀ b, BodyExtends b (pc b).2) → ∀ e b2,
      MarshalledMessageBody.push_mult_helper pc self = (some e, b2) →
      b2.buf.length = self.buf.length ∧ b2.raw_fds.length = self.raw_fds.length ∧
        b2.sig.length = self.sig.length) ∧
    (∀ p1 p2 self, MarshalAppends p1 → MarshalAppends p2 → ∀ e b2,
      MarshalledMessageBody.push_param2 p1 p2 self = (some e, b2) →
      b2.buf.length = self.buf.length ∧ b2.raw_fds.length = self.raw_fds.length ∧
        b2.sig.length = self.sig.length) ∧
    (∀ p1 p2 p3 self, MarshalAppends p1 → MarshalAppends p2 → MarshalAppends p3 → ∀ e b2,
      MarshalledMessageBody.push_param3 p1 p2 p3 self = (some e, b2) →
      b2.buf.length = self.buf.length ∧ b2.raw_fds.length = self.raw_fds.length ∧
        b2.sig.length = self.sig.length) ∧
    (∀ p1 p2 p3 p4 self, MarshalAppends p1 → MarshalAppends p2 → MarshalAppends p3 →
      MarshalAppends p4 → ∀ e b2,
      MarshalledMessageBody.push_param4 p1 p2 p3 p4 self = (some e, b2) →
      b2.buf.length = self.buf.length ∧ b2.raw_fds.length = self.raw_fds.length ∧
        b2.sig.length = self.sig.length) ∧
    (∀ p1 p2 p3 p4 p5 self, MarshalAppends p1 → MarshalAppends p2 → MarshalAppends p3 →
      MarshalAppends p4 → MarshalAppends p5 → ∀ e b2,
      MarshalledMessageBody.push_param5 p1 p2 p3 p4 p5 self = (some e, b2) →
      b2.buf.length = self.buf.length ∧ b2.raw_fds.length = self.raw_fds.length ∧
        b2.sig.length = self.sig.length) := by
  have hlen : ∀ (pc : MarshalledMessageBody → Option MarshalError × MarshalledMessageBody)
      self, (∀ b, BodyExtends b (pc b).2) → ∀ e b2,
      MarshalledMessageBody.push_mult_helper pc self = (some e, b2) →
      b2.buf.length = self.buf.length ∧ b2.raw_fds.length = self.raw_fds.length ∧
        b2.sig.length = self.sig.length := by
    intro pc self hext e b2 h
    obtain ⟨h1, h2, h3⟩ := push_mult_helper_restores pc hext self e b2 h
    exact ⟨by rw [h1], by rw [h2], by rw [h3]⟩
  have hstep : ∀ (p : MarshalImpl), MarshalAppends p →
      ∀ b b2 r, MarshalledMessageBody.push_param p b = (r, b2) → BodyExtends b b2 := by
    intro p hp b b2 r h
    have := push_param_extends p hp b
    rw [h] at this
    exact this
  refine ⟨fun pc self hext => hlen pc self hext, ?_, ?_, ?_, ?_⟩
  · intro p1 p2 self h1 h2 e b2 h
    unfold MarshalledMessageBody.push_param2 at h
    refine hlen _ self ?_ e b2 h
    intro b
    cases hp1 : MarshalledMessageBody.push_param p1 b with
    | mk r1 bb =>
      cases r1 with
      | some e1 => simpa [hp1] using hstep p1 h1 b bb _ hp1
      | none =>
        simp only [hp1]
        exact body_extends_trans (hstep p1 h1 b bb _ hp1) (push_param_extends p2 h2 bb)
  · intro p1 p2 p3 self h1 h2 h3 e b2 h
    unfold MarshalledMessageBody.push_param3 at h
    refine hlen _ self ?_ e b2 h
    intro b
    cases hp1 : MarshalledMessageBody.push_param p1 b with
    | mk r1 bb =>
      cases r1 with
      | some e1 => simpa [hp1] using hstep p1 h1 b bb _ hp1
      | none =>
        simp only [hp1]
        cases hp2 : MarshalledMessageBody.push_param p2 bb with
        | mk r2 cc =>
          cases r2 with
          | some e2 =>
            simpa [hp2] using body_extends_trans (hstep p1 h1 b bb _ hp1)
              (hstep p2 h2 bb cc _ hp2)
          | none =>
            simp only [hp2]
            exact body_extends_trans (hstep p1 h1 b bb _ hp1)
              (body_extends_trans (hstep p2 h2 bb cc _ hp2) (push_param_extends p3 h3 cc))
  · intro p1 p2 p3 p4 self h1 h2 h3 h4 e b2 h
    unfold MarshalledMessageBody.push_param4 at h
    refine hlen _ self ?_ e b2 h
    intro b
    cases hp1 : MarshalledMessageBody.push_param p1 b with
    | mk r1 bb =>
      cases r1 with
      | some e1 => simpa [hp1] using hstep p1 h1 b bb _ hp1
      | none =>
        simp only [hp1]
        cases hp2 : MarshalledMessageBody.push_param p2 bb with
        | mk r2 cc =>
          cases r2 with
          | some e2 =>
            simpa [hp2] using body_extends_trans (hstep p1 h1 b bb _ hp1)
              (hstep p2 h2 bb cc _ hp2)
          | none =>
            simp only [hp2]
            cases hp3 : MarshalledMessageBody.push_param p3 cc with
            | mk r3 dd =>
              cases r3 with
              | some e3 =>
                simpa [hp3] using body_extends_trans (hstep p1 h1 b bb _ hp1)
                  (body_extends_trans (hstep p2 h2 bb cc _ hp2) (hstep p3 h3 cc dd _ hp3))
              | none =>
                simp only [hp3]
                exact body_extends_trans (hstep p1 h1 b bb _ hp1)
                  (body_extends_trans (hstep p2 h2 bb cc _ hp2)
                    (body_extends_trans (hstep p3 h3 cc dd _ hp3)
                      (push_param_extends p4 h4 dd)))
  · intro p1 p2 p3 p4 p5 self h1 h2 h3 h4 h5 e b2 h
    unfold MarshalledMessageBody.push_param5 at h
    refine hlen _ self ?_ e b2 h
    intro b
    cases hp1 : MarshalledMessageBody.push_param p1 b with
    | mk r1 bb =>
      cases r1 with
      | some e1 => simpa [hp1] using hstep p1 h1 b bb _ hp1
      | none =>
        simp only [hp1]
        cases hp2 : MarshalledMessageBody.push_param p2 bb with
        | mk r2 cc =>
          cases r2 with
          | some e2 =>
            simpa [hp2] using body_extends_trans (hstep p1 h1 b bb _ hp1)
              (hstep p2 h2 bb cc _ hp2)
          | none =>
            simp only [hp2]
            cases hp3 : MarshalledMessageBody.push_param p3 cc with
            | mk r3 dd =>
              cases r3 with
              | some e3 =>
                simpa [hp3] using body_extends_trans (hstep p1 h1 b bb _ hp1)
                  (body_extends_trans (hstep p2 h2 bb cc _ hp2) (hstep p3 h3 cc dd _ hp3))
              | none =>
                simp only [hp3]
                cases hp4 : MarshalledMessageBody.push_param p4 dd with
                | mk r4 ee =>
                  cases r4 with
                  | some e4 =>
                    simpa [hp4] using body_extends_trans (hstep p1 h1 b bb _ hp1)
                      (body_extends_trans (hstep p2 h2 bb cc _ hp2)
                        (body_extends_trans (hstep p3 h3 cc dd _ hp3)
                          (hstep p4 h4 dd ee _ hp4)))
                  | none =>
                    simp only [hp4]
                    exact body_extends_trans (hstep p1 h1 b bb _ hp1)
                      (body_extends_trans (hstep p2 h2 bb cc _ hp2)
                        (body_extends_trans (hstep p3 h3 cc dd _ hp3)
                          (body_extends_trans (hstep p4 h4 dd ee _ hp4)
                            (push_param_extends p5 h5 ee))))

/-- C1 witness: a concrete two-parameter push in which the second impl
writes a byte and then fails is rolled back completely by `push_param2`. -/
theorem witness_c1_push_param2_rollback :
    ((MarshalledMessageBody.push_param2 ok_byte_marshal_impl failing_marshal_impl
        MarshalledMessageBody.new).2.buf.length = MarshalledMessageBody.new.buf.length ∧
      (MarshalledMessageBody.push_param2 ok_byte_marshal_impl failing_marshal_impl
        MarshalledMessageBody.new).2.raw_fds.length = MarshalledMessageBody.new.raw_fds.length ∧
      (MarshalledMessageBody.push_param2 ok_byte_marshal_impl failing_marshal_impl
        MarshalledMessageBody.new).2.sig.length = MarshalledMessageBody.new.sig.length) ∧
    (MarshalledMessageBody.push_param2 ok_byte_marshal_impl failing_marshal_impl
        MarshalledMessageBody.new).1 = some .TooLong := by
  have happ1 : MarshalAppends ok_byte_marshal_impl := by
    intro bo ctx
    exact ⟨⟨[1], rfl⟩, ⟨[], (List.append_nil _).symm⟩⟩
  have happ2 : MarshalAppends failing_marshal_impl := by
    intro bo ctx
    exact ⟨⟨[7], rfl⟩, ⟨[], (List.append_nil _).symm⟩⟩
  have hres : MarshalledMessageBody.push_param2 ok_byte_marshal_impl failing_marshal_impl
      MarshalledMessageBody.new
      = (some .TooLong,
         (MarshalledMessageBody.push_param2 ok_byte_marshal_impl failing_marshal_impl
            MarshalledMessageBody.new).2) := by decide
  exact ⟨claim_c1_multi_push_atomicity.2.1 ok_byte_marshal_impl failing_marshal_impl
      MarshalledMessageBody.new happ1 happ2 .TooLong _ hres, by decide⟩

/-- Marshalling a list of byte parameters always succeeds and appends
exactly one byte per element. -/
theorem marshal_byte_list_ok (n : Nat) (byteorder : ByteOrder) (ctx : MarshalCtx) :
    marshal_param_list byteorder (List.replicate n byte_param) ctx
      = (none, { ctx with buf := ctx.buf ++ List.replicate n 0 }) := by
  induction n generalizing ctx with
  | zero => simp [marshal_param_list]
  | succ n ih =>
    rw [List.replicate_succ, marshal_param_list]
    have hb : marshal_param byteorder byte_param ctx = (none, { ctx with buf := ctx.buf ++ [0] }) := by
      rw [byte_param, marshal_param]
      simp [marshal_base_param]
    simp only [hb]
    rw [ih]
    simp [List.replicate_succ, List.append_assoc]

/-- Overwriting four in-range bytes leaves the buffer length unchanged. -/
theorem insert_u32_length (byteorder : ByteOrder) (v : Nat) (buf : List Nat) (pos : Nat)
    (h : pos + 4 ≤ buf.length) : (insert_u32 byteorder v buf pos).length = buf.length := by
  have h4 : (u32_bytes byteorder v).length = 4 := by cases byteorder <;> rfl
  simp only [insert_u32, List.length_append, List.length_take, List.length_drop, h4]
  rw [Nat.min_eq_left (by omega)]
  omega

/-- `marshal_array` on a list of byte parameters never fails (there is no
`ArrayTooLong` check in the source) and produces the header plus one byte
per element; the content length written is `n`, with no bound. -/
theorem marshal_byte_array_ok (n : Nat) (byteorder : ByteOrder) (ctx : MarshalCtx) :
    (marshal_array byteorder (List.replicate n byte_param) (.Base .Byte) ctx).1 = none ∧
    (marshal_array byteorder (List.replicate n byte_param) (.Base .Byte) ctx).2.buf.length
      = (pad_to_align 4 ctx.buf).length + 4 + n := by
  rw [marshal_array]
  have hpad1 : pad_to_align (SigType.get_alignment (.Base .Byte))
      (pad_to_align 4 ctx.buf ++ [0, 0, 0, 0]) = pad_to_align 4 ctx.buf ++ [0, 0, 0, 0] := by
    simp [pad_to_align, SigType.get_alignment, Base.get_alignment, Nat.mod_one]
  rw [hpad1]
  rw [marshal_byte_list_ok]
  refine ⟨rfl, ?_⟩
  show (insert_u32 byteorder _ ((pad_to_align 4 ctx.buf ++ [0, 0, 0, 0]) ++ List.replicate n 0)
      (pad_to_align 4 ctx.buf).length).length = _
  rw [insert_u32_length byteorder _ _ _ (by simp)]
  simp only [List.length_append, List.length_replicate, List.length_cons, List.length_nil]
  try omega

/-- The dict-entry loop on byte keys and byte values never fails. -/
theorem marshal_byte_dict_entries_ok (l : List (Nat × Nat)) (byteorder : ByteOrder)
    (ctx : MarshalCtx) :
    (marshal_dict_entries byteorder (byte_dict_map l) ctx).1 = none := by
  induction l generalizing ctx with
  | nil => simp [byte_dict_map, marshal_dict_entries]
  | cons ab rest ih =>
    simp only [byte_dict_map, List.map_cons]
    rw [marshal_dict_entries]
    have hk : marshal_base_param byteorder (BaseVal.Byte ab.1)
        { buf := pad_to_align 8 ctx.buf, fds := ctx.fds }
        = (none, { buf := pad_to_align 8 ctx.buf ++ [ab.1 % 256], fds := ctx.fds }) := by
      simp [marshal_base_param]
    have hv : ∀ c : MarshalCtx, marshal_param byteorder (Param.Base (BaseVal.Byte ab.2)) c
        = (none, { c with buf := c.buf ++ [ab.2 % 256] }) := by
      intro c
      rw [marshal_param]
      simp [marshal_base_param]
    simp only [hk, hv]
    exact ih _

/-- `marshal_dict` on byte entries never fails: there is no length check. -/
theorem marshal_byte_dict_ok (l : List (Nat × Nat)) (byteorder : ByteOrder)
    (ctx : MarshalCtx) :
    (marshal_dict byteorder (byte_dict_map l) ctx).1 = none := by
  rw [marshal_dict]
  cases he : marshal_dict_entries byteorder (byte_dict_map l)
      { buf := pad_to_align 8 (pad_to_align 4 ctx.buf ++ [0, 0, 0, 0]), fds := ctx.fds } with
  | mk r c2 =>
    have := marshal_byte_dict_entries_ok l byteorder
      { buf := pad_to_align 8 (pad_to_align 4 ctx.buf ++ [0, 0, 0, 0]), fds := ctx.fds }
    rw [he] at this
    cases r with
    | some e => cases this
    | none => simp [he]

/-- C8 amended: `marshal_array` and `marshal_dict` in
`src/src/wire/marshal/container.rs` impose no content-length limit and
never return `ArrayTooLong`: marshalling a byte array of any element
count, and a dict of any number of byte entries, succeeds; the u32 length
prefix is written truncated modulo 2^32. -/
theorem claim_c8_no_array_length_check :
    (∀ n byteorder ctx,
      (marshal_array byteorder (List.replicate n byte_param) (.Base .Byte) ctx).1 = none ∧
      (marshal_array byteorder (List.replicate n byte_param) (.Base .Byte) ctx).2.buf.length
        = (pad_to_align 4 ctx.buf).length + 4 + n) ∧
    (∀ l byteorder ctx, (marshal_dict byteorder (byte_dict_map l) ctx).1 = none) :=
  ⟨fun n byteorder ctx => marshal_byte_array_ok n byteorder ctx,
   fun l byteorder ctx => marshal_byte_dict_ok l byteorder ctx⟩

/-- C8 counterexample: an array whose content length is 2^26 + 1 bytes —
exceeding the claimed 2^26 limit — marshals successfully instead of
failing with `ArrayTooLong`. -/
theorem counterexample_c8_oversized_array_marshals :
    (marshal_array .littleEndian (List.replicate 67108865 byte_param) (.Base .Byte)
        ⟨[], []⟩).1 = none ∧
    (marshal_array .littleEndian (List.replicate 67108865 byte_param) (.Base .Byte)
        ⟨[], []⟩).2.buf.length = 4 + 67108865 ∧
    67108865 > 67108864 := by
  have h := marshal_byte_array_ok 67108865 .littleEndian ⟨[], []⟩
  refine ⟨h.1, ?_, by norm_num⟩
  rw [h.2]
  norm_num [pad_to_align]

/-- `readBytes` only depends on the first `k` bytes when the read region
lies below `k`. -/
theorem readBytes_congr {k : Nat} {b1 b2 : List Nat} (htake : b1.take k = b2.take k)
    (off n : Nat) (hn : off + n ≤ k) : readBytes b1 off n = readBytes b2 off n := by
  unfold readBytes
  have e1 : (b1.drop off).take n = ((b1.take k).drop off).take n := by
    rw [List.drop_take, List.take_take, Nat.min_eq_left (by omega)]
  have e2 : (b2.drop off).take n = ((b2.take k).drop off).take n := by
    rw [List.drop_take, List.take_take, Nat.min_eq_left (by omega)]
  rw [e1, e2, htake]

/-- `align_offset` only depends on the buffer's length and its first `k`
bytes when the padding region lies below `k`. -/
theorem align_offset_congr {k : Nat} {b1 b2 : List Nat} (hlen : b1.length = b2.length)
    (htake : b1.take k = b2.take k) (a off : Nat)
    (hin : off + (a - off % a) % a ≤ k) :
    align_offset a b1 off = align_offset a b2 off := by
  unfold align_offset
  dsimp only
  rw [hlen, readBytes_congr htake off _ hin]

/-- `parse_u32` at `off` only depends on the four bytes below `k`. -/
theorem parse_u32_congr {k : Nat} {b1 b2 : List Nat} (htake : b1.take k = b2.take k)
    (off : Nat) (hin : off + 4 ≤ k) (byteorder : ByteOrder) :
    parse_u32 (b1.drop off) byteorder = parse_u32 (b2.drop off) byteorder := by
  unfold parse_u32
  have h : (b1.drop off).take 4 = (b2.drop off).take 4 := readBytes_congr htake off 4 hin
  rw [h]

/-- A successful `align_offset` returns exactly the arithmetic padding. -/
theorem align_offset_ok_val {a off p : Nat} {buf : List Nat}
    (h : align_offset a buf off = .ok p) : p = (a - off % a) % a := by
  unfold align_offset at h
  by_cases h1 : buf.length < off + (a - off % a) % a
  · rw [if_pos h1] at h
    cases h
  · rw [if_neg h1] at h
    by_cases h2 : (readBytes buf off ((a - off % a) % a)).any (fun b => b ≠ 0)
    · rw [if_pos h2] at h
      cases h
    · rw [if_neg h2] at h
      cases h
      rfl

/-- A successful `align_offset` guarantees the padding region is inside
the buffer. -/
theorem align_offset_ok_le {a off p : Nat} {buf : List Nat}
    (h : align_offset a buf off = .ok p) : off + p ≤ buf.length := by
  unfold align_offset at h
  by_cases h1 : buf.length < off + (a - off % a) % a
  · rw [if_pos h1] at h
    cases h
  · rw [if_neg h1] at h
    by_cases h2 : (readBytes buf off ((a - off % a) % a)).any (fun b => b ≠ 0)
    · rw [if_pos h2] at h
      cases h
    · rw [if_neg h2] at h
      cases h
      omega

/-- A successful `align_offset` leaves `off + p` aligned. -/
theorem align_offset_ok_mod {a off p : Nat} {buf : List Nat} (ha : 0 < a)
    (h : align_offset a buf off = .ok p) : (off + p) % a = 0 := by
  have hp := align_offset_ok_val h
  have hr : off % a < a := Nat.mod_lt _ ha
  rcases Nat.eq_zero_or_pos (off % a) with h0 | hpos
  · rw [hp, h0, Nat.sub_zero, Nat.mod_self, Nat.add_zero, h0]
  · have hlt : a - off % a < a := by omega
    have hpv : p = a - off % a := by rw [hp, Nat.mod_eq_of_lt hlt]
    rw [Nat.add_mod, hpv, Nat.mod_eq_of_lt hlt]
    have : off % a + (a - off % a) = a := by omega
    rw [this, Nat.mod_self]

/-- C4: the validator confines array and dict validation to the bytes
before `offset + declared_content_length`: two buffers of equal total
length agreeing below the bound validate identically (the element walk
runs on the buffer trimmed to the bound), and the source test's buffer —
an `as` array whose string element over-claims its length — is rejected
with an error instead of the element reading past its container. -/
theorem claim_c4_validator_containment :
    (∀ (byteorder : ByteOrder) (fuel offset : Nat) (elem : SigType) (k : Nat)
        (buf1 buf2 : List Nat), buf1.length = buf2.length →
      array_bound byteorder buf1 offset elem = some k →
      buf1.take k = buf2.take k →
      validate_marshalled_container fuel byteorder offset buf1 (.Array elem)
        = validate_marshalled_container fuel byteorder offset buf2 (.Array elem)) ∧
    (∀ (byteorder : ByteOrder) (fuel offset : Nat) (ksig : Base) (vsig : SigType) (k : Nat)
        (buf1 buf2 : List Nat), buf1.length = buf2.length →
      dict_bound byteorder buf1 offset = some k →
      buf1.take k = buf2.take k →
      validate_marshalled_container fuel byteorder offset buf1 (.Dict ksig vsig)
        = validate_marshalled_container fuel byteorder offset buf2 (.Dict ksig vsig)) ∧
    validate_marshalled 32 .littleEndian 0 overflow_array_buf
      (.Container (.Array (.Base .String))) = .error (4, .NotEnoughBytes) := by
  refine ⟨?_, ?_, by decide⟩
  · intro byteorder fuel offset elem k buf1 buf2 hlen hbound htake
    unfold array_bound at hbound
    cases h1 : align_offset 4 buf1 offset with
    | error e => rw [h1] at hbound; cases hbound
    | ok padding =>
      rw [h1] at hbound
      simp only at hbound
      cases h2 : parse_u32 (buf1.drop (offset + padding)) byteorder with
      | error e => rw [h2] at hbound; cases hbound
      | ok pr =>
        obtain ⟨n4, len⟩ := pr
        rw [h2] at hbound
        simp only at hbound
        by_cases h3 : buf1.length - (offset + padding + 4) < len
        · rw [if_pos h3] at hbound; cases hbound
        · rw [if_neg h3] at hbound
          cases h4 : align_offset elem.get_alignment buf1 (offset + padding + 4) with
          | error e => rw [h4] at hbound; cases hbound
          | ok fpad =>
            rw [h4] at hbound
            simp only at hbound
            by_cases h5 : buf1.length - (offset + padding + 4 + fpad) < len
            · rw [if_pos h5] at hbound; cases hbound
            · rw [if_neg h5] at hbound
              injection hbound with hk
              have hpadval := align_offset_ok_val h1
              have hfpadval := align_offset_ok_val h4
              have e1 : align_offset 4 buf2 offset = .ok padding := by
                rw [← align_offset_congr hlen htake 4 offset (by omega)]
                exact h1
              have e2 : parse_u32 (buf2.drop (offset + padding)) byteorder = .ok (n4, len) := by
                rw [← parse_u32_congr htake (offset + padding) (by omega) byteorder]
                exact h2
              have e4 : align_offset elem.get_alignment buf2 (offset + padding + 4) = .ok fpad := by
                rw [← align_offset_congr hlen htake elem.get_alignment (offset + padding + 4)
                  (by omega)]
                exact h4
              have h3' : ¬ buf2.length - (offset + padding + 4) < len := by
                rw [← hlen]; exact h3
              have h5' : ¬ buf2.length - (offset + padding + 4 + fpad) < len := by
                rw [← hlen]; exact h5
              have e5 : buf1.take (offset + padding + 4 + fpad + len)
                  = buf2.take (offset + padding + 4 + fpad + len) := by
                rw [hk]; exact htake
              cases fuel with
              | zero => rfl
              | succ fuel =>
                simp only [validate_marshalled_container, h1, e1, h2, e2, h4, e4,
                  if_neg h3, if_neg h3', if_neg h5, if_neg h5', e5]
  · intro byteorder fuel offset ksig vsig k buf1 buf2 hlen hbound htake
    unfold dict_bound at hbound
    cases h1 : align_offset 4 buf1 offset with
    | error e => rw [h1] at hbound; cases hbound
    | ok padding =>
      rw [h1] at hbound
      simp only at hbound
      cases h2 : parse_u32 (buf1.drop (offset + padding)) byteorder with
      | error e => rw [h2] at hbound; cases hbound
      | ok pr =>
        obtain ⟨n4, len⟩ := pr
        rw [h2] at hbound
        simp only at hbound
        by_cases h3 : buf1.length - (offset + padding + 4) < len
        · rw [if_pos h3] at hbound; cases hbound
        · rw [if_neg h3] at hbound
          cases h4 : align_offset 8 buf1 (offset + padding + 4) with
          | error e => rw [h4] at hbound; cases hbound
          | ok fpad =>
            rw [h4] at hbound
            simp only at hbound
            by_cases h5 : buf1.length - (offset + padding + 4 + fpad) < len
            · rw [if_pos h5] at hbound; cases hbound
            · rw [if_neg h5] at hbound
              injection hbound with hk
              have hpadval := align_offset_ok_val h1
              have hfpadval := align_offset_ok_val h4
              have e1 : align_offset 4 buf2 offset = .ok padding := by
                rw [← align_offset_congr hlen htake 4 offset (by omega)]
                exact h1
              have e2 : parse_u32 (buf2.drop (offset + padding)) byteorder = .ok (n4, len) := by
                rw [← parse_u32_congr htake (offset + padding) (by omega) byteorder]
                exact h2
              have e4 : align_offset 8 buf2 (offset + padding + 4) = .ok fpad := by
                rw [← align_offset_congr hlen htake 8 (offset + padding + 4) (by omega)]
                exact h4
              have h3' : ¬ buf2.length - (offset + padding + 4) < len := by
                rw [← hlen]; exact h3
              have h5' : ¬ buf2.length - (offset + padding + 4 + fpad) < len := by
                rw [← hlen]; exact h5
              have e5 : buf1.take (offset + padding + 4 + fpad + len)
                  = buf2.take (offset + padding + 4 + fpad + len) := by
                rw [hk]; exact htake
              cases fuel with
              | zero => rfl
              | succ fuel =>
                simp only [validate_marshalled_container, h1, e1, h2, e2, h4, e4,
                  if_neg h3, if_neg h3', if_neg h5, if_neg h5', e5]

/-- C4 witness: two concrete five-byte buffers that agree on the four
bytes of an empty byte-array's bound but differ beyond it validate
identically. -/
theorem witness_c4_containment :
    array_bound .littleEndian [0, 0, 0, 0, 1] 0 (.Base .Byte) = some 4 ∧
    validate_marshalled_container 8 .littleEndian 0 [0, 0, 0, 0, 1] (.Array (.Base .Byte))
      = validate_marshalled_container 8 .littleEndian 0 [0, 0, 0, 0, 2] (.Array (.Base .Byte)) :=
  ⟨by decide,
   claim_c4_validator_containment.1 .littleEndian 8 0 (.Base .Byte) 4 [0, 0, 0, 0, 1]
     [0, 0, 0, 0, 2] (by decide) (by decide) (by decide)⟩

/-- A fixed-width base type at an aligned in-range offset validates to
exactly its alignment many bytes, failing only when fewer remain. -/
theorem validate_base_fixed (b : Base) (hb : b.bytes_always_valid = true)
    (byteorder : ByteOrder) (off : Nat) (bufT : List Nat)
    (hmod : off % b.get_alignment = 0) (hle : off ≤ bufT.length) :
    validate_marshalled_base byteorder off bufT b =
      if bufT.length - off < b.get_alignment then .error (off, .NotEnoughBytes)
      else .ok b.get_alignment := by
  have hpad : align_offset b.get_alignment bufT off = .ok 0 := by
    have hpad0 : (b.get_alignment - off % b.get_alignment) % b.get_alignment = 0 := by
      rw [hmod, Nat.sub_zero, Nat.mod_self]
    unfold align_offset
    dsimp only
    rw [hpad0]
    rw [if_neg (by omega)]
    rw [if_neg (by simp [readBytes])]
  cases b with
  | Boolean => simp [Base.bytes_always_valid] at hb
  | String => simp [Base.bytes_always_valid] at hb
  | ObjectPath => simp [Base.bytes_always_valid] at hb
  | Signature => simp [Base.bytes_always_valid] at hb
  | Byte =>
    simp only [Base.get_alignment] at hpad
    simp only [validate_marshalled_base, Base.get_alignment, hpad, Nat.add_zero]
    by_cases hc : bufT.length - off = 0
    · rw [if_pos hc, if_pos (by omega)]
    · rw [if_neg hc, if_neg (by omega)]
  | Int16 =>
    simp only [Base.get_alignment] at hpad
    simp only [validate_marshalled_base, Base.get_alignment, hpad, Nat.add_zero]
  | Uint16 =>
    simp only [Base.get_alignment] at hpad
    simp only [validate_marshalled_base, Base.get_alignment, hpad, Nat.add_zero]
  | Int32 =>
    simp only [Base.get_alignment] at hpad
    simp only [validate_marshalled_base, Base.get_alignment, hpad, Nat.add_zero]
  | Uint32 =>
    simp only [Base.get_alignment] at hpad
    simp only [validate_marshalled_base, Base.get_alignment, hpad, Nat.add_zero]
  | Int64 =>
    simp only [Base.get_alignment] at hpad
    simp only [validate_marshalled_base, Base.get_alignment, hpad, Nat.add_zero]
  | Uint64 =>
    simp only [Base.get_alignment] at hpad
    simp only [validate_marshalled_base, Base.get_alignment, hpad, Nat.add_zero]
  | Double =>
    simp only [Base.get_alignment] at hpad
    simp only [validate_marshalled_base, Base.get_alignment, hpad, Nat.add_zero]
  | UnixFd =>
    simp only [Base.get_alignment] at hpad
    simp only [validate_marshalled_base, Base.get_alignment, hpad, Nat.add_zero]

/-- The element walk over a fixed-width base element, on the buffer
trimmed to the declared content end, accepts exactly when the remaining
content length is a whole number of elements. -/
theorem validate_elems_fixed (b : Base) (hb : b.bytes_always_valid = true)
    (byteorder : ByteOrder) (bufT : List Nat) (off target : Nat)
    (hlen : bufT.length = off + target) (hoff : off % b.get_alignment = 0) :
    ∀ fuel counter, counter % b.get_alignment = 0 → counter ≤ target →
      target - counter + 1 ≤ fuel →
      ((∃ n, validate_array_elems fuel byteorder bufT (.Base b) off target counter = .ok n) ↔
        (target - counter) % b.get_alignment = 0) := by
  have ha : 0 < b.get_alignment := by cases b <;> simp [Base.get_alignment]
  intro fuel
  induction fuel with
  | zero =>
    intro counter _ _ h3
    omega
  | succ fuel ih =>
    intro counter hcmod hcle hfuel
    by_cases hlt : counter < target
    · rw [validate_array_elems, if_pos hlt]
      have hvm : validate_marshalled fuel byteorder (off + counter) bufT (.Base b)
          = validate_marshalled_base byteorder (off + counter) bufT b := by
        cases fuel with
        | zero => omega
        | succ f => rfl
      have hocmod : (off + counter) % b.get_alignment = 0 := by
        rw [Nat.add_mod, hoff, hcmod]
        simp
      rw [hvm, validate_base_fixed b hb byteorder (off + counter) bufT hocmod (by omega)]
      have hrem : bufT.length - (off + counter) = target - counter := by omega
      by_cases hlow : bufT.length - (off + counter) < b.get_alignment
      · rw [if_pos hlow]
        constructor
        · rintro ⟨n, hn⟩
          cases hn
        · intro hmod0
          exfalso
          have h1 : target - counter < b.get_alignment := by omega
          have h2 : 0 < target - counter := by omega
          rw [Nat.mod_eq_of_lt h1] at hmod0
          omega
      · rw [if_neg hlow]
        have hstep := ih (counter + b.get_alignment)
          (by rw [Nat.add_mod_right]; exact hcmod)
          (by omega) (by omega)
        simp only
        rw [hstep]
        have hsum : target - (counter + b.get_alignment) + b.get_alignment = target - counter := by
          omega
        rw [← hsum, Nat.add_mod_right]
    · have hceq : counter = target := by omega
      subst hceq
      rw [validate_array_elems, if_neg hlt]
      simp [Nat.sub_self]

/-- The fast-path equivalence for a fixed-width base element type. -/
theorem fast_path_equiv_base (byteorder : ByteOrder) (buf : List Nat)
    (offset : Nat) (b : Base) (fuel : Nat)
    (hb : (SigType.Base b).bytes_always_valid = true)
    (hfuel : buf.length + 2 ≤ fuel) :
    (∀ n, validate_marshalled_container fuel byteorder offset buf (.Array (.Base b)) = .ok n ↔
      validate_array_elementwise fuel byteorder offset buf (.Base b) = .ok n) ∧
    ((∃ n, validate_marshalled_container fuel byteorder offset buf (.Array (.Base b)) = .ok n) ↔
      (∃ n, validate_array_elementwise fuel byteorder offset buf (.Base b) = .ok n)) := by
  have hbb : b.bytes_always_valid = true := hb
  have ha : 0 < b.get_alignment := by cases b <;> simp [Base.get_alignment]
  have hmain : ∀ n, validate_marshalled_container fuel byteorder offset buf
      (.Array (.Base b)) = .ok n ↔
      validate_array_elementwise fuel byteorder offset buf (.Base b) = .ok n := by
    intro n
    cases fuel with
    | zero => omega
    | succ f =>
      simp only [validate_marshalled_container, validate_array_elementwise]
      cases h1 : align_offset 4 buf offset with
      | error e => exact Iff.rfl
      | ok padding =>
        dsimp only
        cases h2 : parse_u32 (buf.drop (offset + padding)) byteorder with
        | error e => exact Iff.rfl
        | ok pr =>
          obtain ⟨n4, len⟩ := pr
          dsimp only
          by_cases h3 : buf.length - (offset + padding + 4) < len
          · simp only [if_pos h3]
          · simp only [if_neg h3]
            cases h4 : align_offset (SigType.Base b).get_alignment buf (offset + padding + 4) with
            | error e => exact Iff.rfl
            | ok fpad =>
              dsimp only
              by_cases h5 : buf.length - (offset + padding + 4 + fpad) < len
              · simp only [if_pos h5]
              · simp only [if_neg h5, if_pos hb]
                have hoff3le : offset + padding + 4 + fpad ≤ buf.length := align_offset_ok_le h4
                have htlen : (buf.take (offset + padding + 4 + fpad + len)).length
                    = (offset + padding + 4 + fpad) + len := by
                  rw [List.length_take]
                  omega
                have hoff3mod : (offset + padding + 4 + fpad) % b.get_alignment = 0 :=
                  align_offset_ok_mod ha h4
                have hwalk := validate_elems_fixed b hbb byteorder
                  (buf.take (offset + padding + 4 + fpad + len)) (offset + padding + 4 + fpad)
                  len htlen hoff3mod f 0 (Nat.zero_mod _) (Nat.zero_le _) (by omega)
                rw [Nat.sub_zero] at hwalk
                by_cases hdix : len % (SigType.Base b).get_alignment = 0
                · rw [if_neg (by simpa using hdix)]
                  obtain ⟨m, hm⟩ := hwalk.mpr hdix
                  rw [hm]
                · rw [if_pos (by simpa using hdix)]
                  cases he : validate_array_elems f byteorder
                      (buf.take (offset + padding + 4 + fpad + len)) (.Base b)
                      (offset + padding + 4 + fpad) len 0 with
                  | error e2 => simp
                  | ok m => exact absurd (hwalk.mp ⟨m, he⟩) hdix
  exact ⟨hmain, exists_congr hmain⟩

/-- C5: for every array whose element type satisfies `bytes_always_valid`,
the validator's fast path (checking only that the declared content length
is a multiple of the element alignment and accepting the content bytes
wholesale) accepts exactly the same buffers, and consumes exactly the same
number of bytes, as the element-wise validation walk would for that
element type. -/
theorem claim_c5_fast_path_equivalence (byteorder : ByteOrder) (buf : List Nat)
    (offset : Nat) (elem : SigType) (fuel : Nat)
    (hb : elem.bytes_always_valid = true)
    (hfuel : buf.length + 2 ≤ fuel) :
    (∀ n, validate_marshalled_container fuel byteorder offset buf (.Array elem) = .ok n ↔
      validate_array_elementwise fuel byteorder offset buf elem = .ok n) ∧
    ((∃ n, validate_marshalled_container fuel byteorder offset buf (.Array elem) = .ok n) ↔
      (∃ n, validate_array_elementwise fuel byteorder offset buf elem = .ok n)) := by
  cases elem with
  | Container c => simp [SigType.bytes_always_valid] at hb
  | Base b => exact fast_path_equiv_base byteorder buf offset b fuel hb hfuel

/-- C5 witness: a one-element `u32` array is accepted by both the fast
path and the element-wise walk with the same consumed count, 8. -/
theorem witness_c5_fast_path :
    validate_marshalled_container 10 .littleEndian 0 [4, 0, 0, 0, 9, 9, 9, 9]
      (.Array (.Base .Uint32)) = .ok 8 ∧
    validate_array_elementwise 10 .littleEndian 0 [4, 0, 0, 0, 9, 9, 9, 9]
      (.Base .Uint32) = .ok 8 :=
  ⟨by decide,
   ((claim_c5_fast_path_equivalence .littleEndian [4, 0, 0, 0, 9, 9, 9, 9] 0 (.Base .Uint32) 10
      (by decide) (by decide)).1 8).mp (by decide)⟩

end Rustbus
